import Mathlib

/-!
Verification development for the RSS-Indexer repository (src/multi.rs,
src/pooled.rs, src/threadpool.rs).

The Rust code is shallowly embedded as executable Lean definitions:

* `Gate` — the hand-rolled condvar counters of `multi.rs` (`ThreadCount`,
  lines 14-16 and the acquire/release blocks) as a transition system.
* `Dedup` — the two-lock `contains`-then-`insert` pattern of
  `multi.rs:60-64 / 131-135` and `pooled.rs:35-39 / 73-77` as an
  interleaving model of two concurrent tasks.
* `Multi` — the gated orchestrator of `multi.rs`, as a sequential
  denotation: spawning collects handles, joining runs them, exactly as
  the `handles.push` / `for handle in handles` structure of the source.
* `Pooled` — the two-thread-pool orchestrator of `pooled.rs`.
* `Threadpool` — the mpsc worker pool of `threadpool.rs`.

`common.rs` is not part of the sources; the pieces of it that the
claims need (the error enum, `process_article`, `ArticleIndex.add`) are
modelled from the spec and marked as such in their doc comments.
-/

/-- Modelled from the spec: `common.rs` (which defines `RssIndexError`)
is not under src/.  Spec section 7 names the kinds IOError, ParseError,
MissingFieldError, FetchError, UrlError.  The variants used by the
visible sources are `UrlError` (multi.rs:57-58, pooled.rs:32-33) plus
the implicit IO/parse/fetch conversions behind `?`. -/
inductive RssIndexError
  | ioError
  | parseError
  | missingFieldError
  | fetchError
  | urlError
deriving DecidableEq

/-- An `rss::Item`: link and title are both optional. -/
structure Item where
  link : Option String
  title : Option String
deriving DecidableEq

/-- The external collaborators, passed as an environment.
`seed` stands for `File::open` + `Channel::read_from` on the seed file;
`fetchParse` for `reqwest::blocking::get(url)?.bytes()?` +
`Channel::read_from`; `host` for `Url::parse(url)?.host_str()` (an
error for an unparsable URL, `none` for a URL without a host);
`extract` for `process_article` (modelled from the spec: the
word-extraction collaborator of common.rs, given url and title). -/
structure Env where
  seed : Except RssIndexError (List Item)
  fetchParse : String → Except RssIndexError (List Item)
  host : String → Except RssIndexError (Option String)
  extract : String → String → Except RssIndexError (List String)

/-- Result of running a piece of code: normal return, `Err` return, or
a Rust panic (`unwrap` on an error). -/
inductive Outcome (α : Type)
  | ok (a : α)
  | err (e : RssIndexError)
  | panicked
deriving DecidableEq

namespace Gate

/-- multi.rs:14. -/
def MAX_THREADS_FEEDS : Nat := 5
/-- multi.rs:15. -/
def MAX_THREADS_SITES : Nat := 10
/-- multi.rs:16. -/
def MAX_THREADS_TOTAL : Nat := 18

/-- `HashMap<String, u32>` lookup with `entry(k).or_insert(0)` reading:
absent keys count as 0. -/
def lookup0 (m : List (String × Nat)) (k : String) : Nat :=
  ((m.find? (fun p => p.1 == k)).map Prod.snd).getD 0

/-- Store a value under a key (insert or overwrite), the effect of
`*map.entry(k).or_insert(0) = v`. -/
def setv : List (String × Nat) → String → Nat → List (String × Nat)
  | [], k, v => [(k, v)]
  | (k1, v1) :: r, k, v =>
    if k1 == k then (k, v) :: r else (k1, v1) :: setv r k v

/-- multi.rs:34-38: the three condvar-protected counters. -/
structure ThreadCount where
  feeds_count : Nat
  sites_count : List (String × Nat)
  total_count : Nat
deriving DecidableEq

/-- One atomic counter operation of the gate strategy.  An acquire is
the body of a wait-loop block (multi.rs:67-81 and 140-156): it can fire
only when the counter is at most `MAX - 1` (the loop waits while
`cnt > MAX - 1`), and then increments under the same mutex.  A release
(multi.rs:92-102 and 176-186) decrements. -/
inductive Step : ThreadCount → ThreadCount → Prop
  | acquireTotal (t : ThreadCount) :
      t.total_count < MAX_THREADS_TOTAL →
      Step t { t with total_count := t.total_count + 1 }
  | acquireFeeds (t : ThreadCount) :
      t.feeds_count < MAX_THREADS_FEEDS →
      Step t { t with feeds_count := t.feeds_count + 1 }
  | acquireSite (t : ThreadCount) (k : String) :
      lookup0 t.sites_count k < MAX_THREADS_SITES →
      Step t { t with sites_count := setv t.sites_count k (lookup0 t.sites_count k + 1) }
  | releaseTotal (t : ThreadCount) :
      Step t { t with total_count := t.total_count - 1 }
  | releaseFeeds (t : ThreadCount) :
      Step t { t with feeds_count := t.feeds_count - 1 }
  | releaseSite (t : ThreadCount) (k : String) :
      Step t { t with sites_count := setv t.sites_count k (lookup0 t.sites_count k - 1) }

/-- multi.rs:50-54: all counters start at zero. -/
def initCount : ThreadCount := ⟨0, [], 0⟩

/-- States reachable by any interleaving of gate operations. -/
inductive Reach : ThreadCount → Prop
  | init : Reach initCount
  | step {t t1 : ThreadCount} : Reach t → Step t t1 → Reach t1

/-- The three ceilings of the claim, as one predicate on the counters. -/
def Bounded (t : ThreadCount) : Prop :=
  t.total_count ≤ MAX_THREADS_TOTAL ∧
  t.feeds_count ≤ MAX_THREADS_FEEDS ∧
  ∀ k : String, lookup0 t.sites_count k ≤ MAX_THREADS_SITES

end Gate

namespace Dedup

/-!
multi.rs:60-64 and 131-135 (and identically pooled.rs:35-39, 73-77):

    if urls.lock().unwrap().contains(url) { continue; }
    urls.lock().unwrap().insert(url.to_string());

The membership test and the insert each take the mutex separately, so a
task performs two atomic steps, not one.  The model below runs two
tasks, each presenting one URL, with every step atomic; a schedule is
the order in which the two tasks take their steps.  A task "believes it
is first" exactly when its `contains` check returned false. -/

/-- Program counters and per-task check result for two tasks. -/
structure TState where
  seen : List String
  pcA : Nat
  resA : Option Bool
  pcB : Nat
  resB : Option Bool
deriving DecidableEq

/-- One atomic step of a task presenting URL `u`: at pc 0 it runs the
locked `contains` (recording the answer, and skipping the insert when
already seen, as the `continue` does); at pc 1 it runs the locked
`insert`.  A finished task does nothing. -/
def stepTask (u : String) (seen : List String) (pc : Nat) (res : Option Bool) :
    List String × Nat × Option Bool :=
  if pc == 0 then
    if seen.contains u then (seen, 2, some true) else (seen, 1, some false)
  else if pc == 1 then (seen ++ [u], 2, res)
  else (seen, pc, res)

/-- Run a schedule: `true` schedules a step of task A, `false` of task B. -/
def run2 (uA uB : String) : List Bool → TState → TState
  | [], st => st
  | b :: rest, st =>
    if b then
      let r := stepTask uA st.seen st.pcA st.resA
      run2 uA uB rest { st with seen := r.1, pcA := r.2.1, resA := r.2.2 }
    else
      let r := stepTask uB st.seen st.pcB st.resB
      run2 uA uB rest { st with seen := r.1, pcB := r.2.1, resB := r.2.2 }

/-- Both tasks start before their check, with nothing recorded. -/
def initT (seen : List String) : TState := ⟨seen, 0, none, 0, none⟩

/-- A task believes it is first for its URL when its check returned
false (it then inserted and went on to process the URL). -/
def believesFirst (res : Option Bool) : Prop := res = some false

instance (res : Option Bool) : Decidable (believesFirst res) := by
  unfold believesFirst
  infer_instance

/-- The spec's `check_and_insert` contract (section 4.3): membership
test and insert as one indivisible operation.  Returns true iff the key
was absent (and is then inserted). -/
def checkAndInsert (seen : List String) (u : String) : Bool × List String :=
  if seen.contains u then (false, seen) else (true, seen ++ [u])

/-- `n` concurrent callers presenting the same URL, each running the
indivisible `checkAndInsert` as its single atomic step; since all
callers are identical, any interleaving is a serialization of them. -/
def runAtomic (u : String) : Nat → List String → List Bool
  | 0, _ => []
  | n + 1, seen =>
    let r := checkAndInsert seen u
    r.1 :: runAtomic u n r.2

end Dedup

/-- Identifier of a dispatched task.  URLs identify tasks uniquely
because a task is only dispatched after its URL passed the dedup check
against the run's shared URL set. -/
inductive TaskId
  | feed (url : String)
  | art (url : String)
deriving DecidableEq

/-- A gate event of one task's lifecycle, key left implicit: for a feed
task the scoped slot is the feed counter, for an article task the
site counter of its site key. -/
inductive GOp
  | acqTotal
  | acqScoped
  | relTotal
  | relScoped
  | work
deriving DecidableEq

/-- A pending article thread (multi.rs: an element of `handles` inside
`process_feed`).  `evs` are the gate events already performed on its
behalf at the dispatch site. -/
structure AHandle where
  site : String
  title : String
  url : String
  evs : List GOp
deriving DecidableEq

/-- The shared state of one run.
`urls` is THE one `Arc<Mutex<HashSet<String>>>` of the run
(multi.rs:47, passed to `process_feed` at line 90 and used for article
dedup at line 131 — the same set serves both levels).
`index` records the `ArticleIndex.add` calls in order (modelled from
the spec: ArticleIndex lives in common.rs; it is mutated only through
`add(site, title, url, words)`).
`spawned` and `completed` record task dispatches and joined task
completions; `logs` records, per finished task, its gate events. -/
structure RunState where
  urls : List String
  index : List (String × String × String × List String)
  spawned : List TaskId
  completed : List TaskId
  logs : List (TaskId × List GOp)
deriving DecidableEq

def initState : RunState := ⟨[], [], [], [], []⟩

namespace Multi

/-- multi.rs:67-81: the feed dispatch site acquires the total slot,
then the feed slot. -/
def feedDispatchEvs : List GOp := [.acqTotal, .acqScoped]

/-- multi.rs:140-156: the article dispatch site acquires the total
slot, then the site slot for the feed's host. -/
def articleDispatchEvs : List GOp := [.acqTotal, .acqScoped]

/-- multi.rs:165-187, the spawned article closure (run when its handle
is joined, in this sequential denotation): `process_article` then
`index.add`, then release total, then release site.  A failing
`process_article` is `.unwrap()`ed: the thread panics before the index
write and before any release. -/
def articleTask (env : Env) (h : AHandle) (st : RunState) : Outcome Unit × RunState :=
  match env.extract h.url h.title with
  | .error _ =>
    (.panicked, { st with logs := st.logs ++ [(.art h.url, h.evs ++ [.work])] })
  | .ok ws =>
    (.ok (), { st with
      index := st.index ++ [(h.site, h.title, h.url, ws)],
      completed := st.completed ++ [.art h.url],
      logs := st.logs ++ [(.art h.url, h.evs ++ [.work, .relTotal, .relScoped])] })

/-- multi.rs:125-190, the loop of `process_feed`: for each item, the
match on `(item.link(), Url::parse(&url)?.host_str(), item.title())`
(the `?` aborts `process_feed` with the URL-parse error; a `None` in
any component skips the item), then the two-step dedup against the
shared `urls`, the two gate acquisitions, and the spawn
(`handles.push`). -/
def feedLoop (env : Env) (feedUrl : String) :
    List Item → RunState → List AHandle → Option RssIndexError × RunState × List AHandle
  | [], st, hs => (none, st, hs)
  | item :: rest, st, hs =>
    match env.host feedUrl with
    | .error e => (some e, st, hs)
    | .ok hostOpt =>
      match item.link, hostOpt, item.title with
      | some u, some s, some t =>
        if st.urls.contains u then
          feedLoop env feedUrl rest st hs
        else
          feedLoop env feedUrl rest
            { st with urls := st.urls ++ [u], spawned := st.spawned ++ [.art u] }
            (hs ++ [⟨s, t, u, articleDispatchEvs⟩])
      | _, _, _ => feedLoop env feedUrl rest st hs

/-- multi.rs:191-193: `for handle in handles { handle.join().unwrap() }`.
A panicked task makes the join `.unwrap()` panic; the remaining handles
are dropped, i.e. detached, not joined. -/
def joinArticles (env : Env) : List AHandle → RunState → Outcome Unit × RunState
  | [], st => (.ok (), st)
  | h :: rest, st =>
    match articleTask env h st with
    | (.ok _, st1) => joinArticles env rest st1
    | (o, st1) => (o, st1)

/-- multi.rs:115-195, `process_feed`: fetch and parse the feed (`?` on
failure), run the item loop, then join the article handles.  An error
from the loop (`Url::parse(&url)?`) returns WITHOUT joining the
already-spawned article handles. -/
def processFeed (env : Env) (url : String) (st : RunState) : Outcome Unit × RunState :=
  match env.fetchParse url with
  | .error e => (.err e, st)
  | .ok items =>
    match feedLoop env url items st [] with
    | (some e, st1, _) => (.err e, st1)
    | (none, st1, hs) => joinArticles env hs st1

/-- multi.rs:88-103, the spawned feed closure:
`process_feed(&url, ...).unwrap()` then release total, release feeds.
A failing `process_feed` (or a panic propagated from an article join)
panics the thread before the releases. -/
def feedTask (env : Env) (url : String) (st : RunState) : Outcome Unit × RunState :=
  match processFeed env url st with
  | (.ok _, st1) =>
    (.ok (), { st1 with
      completed := st1.completed ++ [.feed url],
      logs := st1.logs ++ [(.feed url, feedDispatchEvs ++ [.work, .relTotal, .relScoped])] })
  | (_, st1) =>
    (.panicked, { st1 with logs := st1.logs ++ [(.feed url, feedDispatchEvs ++ [.work])] })

/-- multi.rs:56-106, the seed loop: `feed.link().ok_or(UrlError)?` and
`feed.title().ok_or(UrlError)?` (an absent field fails the whole run
with `RssIndexError::UrlError`), then the two-step dedup, the two gate
acquisitions, and the spawn (`handles.push`). -/
def seedLoop : List Item → RunState → List String →
    Option RssIndexError × RunState × List String
  | [], st, fs => (none, st, fs)
  | item :: rest, st, fs =>
    match item.link with
    | none => (some .urlError, st, fs)
    | some url =>
      match item.title with
      | none => (some .urlError, st, fs)
      | some _ =>
        if st.urls.contains url then
          seedLoop rest st fs
        else
          seedLoop rest
            { st with urls := st.urls ++ [url], spawned := st.spawned ++ [.feed url] }
            (fs ++ [url])

/-- multi.rs:107-109: join every feed handle; a panicked feed task
makes the `.unwrap()` panic and the remaining handles are detached. -/
def joinFeeds (env : Env) : List String → RunState → Outcome Unit × RunState
  | [], st => (.ok (), st)
  | u :: rest, st =>
    match feedTask env u st with
    | (.ok _, st1) => joinFeeds env rest st1
    | (o, st1) => (o, st1)

/-- multi.rs:42-111, `process_feed_file`: open and parse the seed file
(`?` on failure), run the seed loop, then join the feed handles.  An
error from the seed loop (`ok_or(UrlError)?` on a malformed entry)
returns WITHOUT joining the already-spawned feed handles. -/
def processFeedFile (env : Env) : Outcome Unit × RunState :=
  match env.seed with
  | .error e => (.err e, initState)
  | .ok items =>
    match seedLoop items initState [] with
    | (some e, st, _) => (.err e, st)
    | (none, st, fs) => joinFeeds env fs st

/-- multi.rs:92-96 / 176-180: `*cur_tot_cnt -= 1` under the mutex. -/
def releaseTotalOp (t : Gate.ThreadCount) : Gate.ThreadCount :=
  { t with total_count := t.total_count - 1 }

/-- multi.rs:98-102: `*cur_feeds_cnt -= 1` under the mutex. -/
def releaseFeedsOp (t : Gate.ThreadCount) : Gate.ThreadCount :=
  { t with feeds_count := t.feeds_count - 1 }

/-- multi.rs:182-186: `*cur_sites_map.entry(site).or_insert(0) -= 1`
under the mutex (truncated at 0, as `Nat` subtraction). -/
def releaseSiteOp (t : Gate.ThreadCount) (k : String) : Gate.ThreadCount :=
  { t with sites_count := Gate.setv t.sites_count k (Gate.lookup0 t.sites_count k - 1) }

/-- multi.rs:88-103 viewed through its effect on the counters: the
spawned feed closure runs `process_feed(&url, ...).unwrap()` and only
then decrements the total and feed counters.  When `process_feed`
fails, `.unwrap()` panics and neither decrement runs. -/
def feedTaskCounters (env : Env) (url : String) (st : RunState) (t : Gate.ThreadCount) :
    Outcome Unit × Gate.ThreadCount :=
  match (processFeed env url st).1 with
  | .ok _ => (.ok (), releaseFeedsOp (releaseTotalOp t))
  | _ => (.panicked, t)

/-- multi.rs:165-187 viewed through its effect on the counters: the
spawned article closure runs `process_article(&article).unwrap()` and
the index add, and only then decrements the total and site counters.
When `process_article` fails, `.unwrap()` panics and neither decrement
runs. -/
def articleTaskCounters (env : Env) (h : AHandle) (t : Gate.ThreadCount) :
    Outcome Unit × Gate.ThreadCount :=
  match env.extract h.url h.title with
  | .ok _ => (.ok (), releaseSiteOp (releaseTotalOp t) h.site)
  | .error _ => (.panicked, t)

/-- Checks that in a task's event list every scoped acquisition is
preceded by a total acquisition (the boolean argument records whether
an `acqTotal` has happened yet). -/
def acqOrderOk : List GOp → Bool → Bool
  | [], _ => true
  | .acqTotal :: r, _ => acqOrderOk r true
  | .acqScoped :: r, t => t && acqOrderOk r t
  | _ :: r, t => acqOrderOk r t

/-- Checks that at every `work` event of a task's event list the task
holds at least one total slot and one scoped slot (the counters track
acquisitions minus releases so far). -/
def workHeldBoth : List GOp → Nat → Nat → Bool
  | [], _, _ => true
  | .acqTotal :: r, t, s => workHeldBoth r (t + 1) s
  | .acqScoped :: r, t, s => workHeldBoth r t (s + 1)
  | .relTotal :: r, t, s => workHeldBoth r (t - 1) s
  | .relScoped :: r, t, s => workHeldBoth r t (s - 1)
  | .work :: r, t, s => decide (0 < t) && decide (0 < s) && workHeldBoth r t s

/-- The two possible lifecycle event lists of a joined task: the
successful shape (acquire total, acquire scoped, body, release total,
release scoped) and the panicked shape (no releases). -/
def LogOk (p : TaskId × List GOp) : Prop :=
  p.2 = [GOp.acqTotal, GOp.acqScoped, GOp.work, GOp.relTotal, GOp.relScoped] ∨
  p.2 = [GOp.acqTotal, GOp.acqScoped, GOp.work]

end Multi

namespace Pooled

/-- An article closure queued into the sites pool (pooled.rs:89-97). -/
structure AJob where
  site : String
  title : String
  url : String
deriving DecidableEq

/-- pooled.rs:67-98, the loop of `process_feed`: the same match and
two-step dedup as multi.rs, but the dispatch is
`sites_pool.execute(...)`, which only enqueues the article job. -/
def feedJobLoop (env : Env) (feedUrl : String) :
    List Item → RunState → List AJob → Option RssIndexError × RunState × List AJob
  | [], st, aq => (none, st, aq)
  | item :: rest, st, aq =>
    match env.host feedUrl with
    | .error e => (some e, st, aq)
    | .ok hostOpt =>
      match item.link, hostOpt, item.title with
      | some u, some s, some t =>
        if st.urls.contains u then
          feedJobLoop env feedUrl rest st aq
        else
          feedJobLoop env feedUrl rest
            { st with urls := st.urls ++ [u], spawned := st.spawned ++ [.art u] }
            (aq ++ [⟨s, t, u⟩])
      | _, _, _ => feedJobLoop env feedUrl rest st aq

/-- pooled.rs:57-100, `process_feed`: fetch and parse, then the loop.
Returns the enqueued-but-not-yet-run article jobs. -/
def processFeed (env : Env) (url : String) (st : RunState) (aq : List AJob) :
    Outcome Unit × RunState × List AJob :=
  match env.fetchParse url with
  | .error e => (.err e, st, aq)
  | .ok items =>
    match feedJobLoop env url items st aq with
    | (some e, st1, aq1) => (.err e, st1, aq1)
    | (none, st1, aq1) => (.ok (), st1, aq1)

/-- pooled.rs:47-49, the queued feed closure:
`process_feed(&url, ...).unwrap()` — a failure panics the worker that
runs the job. -/
def feedJob (env : Env) (u : String) (st : RunState) (aq : List AJob) :
    Outcome Unit × RunState × List AJob :=
  match processFeed env u st aq with
  | (.ok _, st1, aq1) => (.ok (), { st1 with completed := st1.completed ++ [.feed u] }, aq1)
  | (_, st1, aq1) => (.panicked, st1, aq1)

/-- pooled.rs:89-97, the queued article closure: `process_article`
(`.unwrap()` — a failure panics the worker), then `index.add`. -/
def articleJob (env : Env) (j : AJob) (st : RunState) : Outcome Unit × RunState :=
  match env.extract j.url j.title with
  | .error _ => (.panicked, st)
  | .ok ws =>
    (.ok (), { st with
      index := st.index ++ [(j.site, j.title, j.url, ws)],
      completed := st.completed ++ [.art j.url] })

/-- The feeds pool draining every queued feed job (threadpool.rs Drop:
the kill messages are sent after all jobs, so each worker first
finishes the queued jobs).  A panicking job panics its worker, and the
subsequent `worker.join().unwrap()` panics the dropping thread. -/
def drainFeeds (env : Env) : List String → RunState → List AJob → Outcome Unit × RunState × List AJob
  | [], st, aq => (.ok (), st, aq)
  | u :: rest, st, aq =>
    match feedJob env u st aq with
    | (.ok _, st1, aq1) => drainFeeds env rest st1 aq1
    | (o, st1, aq1) => (o, st1, aq1)

/-- The sites pool draining every queued article job. -/
def drainArticles (env : Env) : List AJob → RunState → Outcome Unit × RunState
  | [], st => (.ok (), st)
  | j :: rest, st =>
    match articleJob env j st with
    | (.ok _, st1) => drainArticles env rest st1
    | (o, st1) => (o, st1)

/-- The teardown of pooled.rs `process_feed_file`.  Locals drop in
reverse declaration order: the function's own `Arc` around the sites
pool first (its pool survives while feed jobs hold clones), then
`feeds_pool`, whose `Drop` drains and joins the feed workers; when the
last feed job finishes, the last sites-pool `Arc` drops and that
pool's `Drop` drains and joins the article workers.  So both queues are
drained before the function returns — also on the early-error return
path, because Rust runs the drops there too.  `res` is the value being
returned (the seed-loop error, if any). -/
def finish (env : Env) (res : Option RssIndexError) (fs : List String) (st : RunState) :
    Outcome Unit × RunState :=
  match drainFeeds env fs st [] with
  | (.ok _, st1, aq) =>
    match drainArticles env aq st1 with
    | (.ok _, st2) =>
      match res with
      | some e => (.err e, st2)
      | none => (.ok (), st2)
    | (o, st2) => (o, st2)
  | (o, st1, _) => (o, st1)

/-- pooled.rs:20-53, `process_feed_file`: the seed loop is the same
fail-fast dedup loop as multi.rs:56-65 (literally the same code modulo
the dispatch), so it reuses `Multi.seedLoop`; `fs` are the queued feed
jobs.  Whatever the loop's outcome, the pools' destructors drain both
queues before the function returns. -/
def processFeedFile (env : Env) : Outcome Unit × RunState :=
  match env.seed with
  | .error e => (.err e, initState)
  | .ok items =>
    match Multi.seedLoop items initState [] with
    | (res, st, fs) => finish env res fs st

end Pooled

namespace Threadpool

/-- threadpool.rs:62-70: `Drop` sends one `None` per worker after all
submitted jobs; the mpsc channel is FIFO, so the queue a pool with `k`
workers shuts down on is the submitted jobs followed by `k` kill
messages. -/
def msgs (jobs : List Nat) (k : Nat) : List (Option Nat) :=
  jobs.map some ++ List.replicate k none

/-- threadpool.rs:37-43, the worker loop, as a transition system over
(messages consumed, workers stopped): any still-running worker (fewer
than `k` stopped) takes the next message under the receiver mutex;
taking a job keeps it running, taking a kill message stops it. -/
inductive Reach (jobs : List Nat) (k : Nat) : Nat → Nat → Prop
  | init : Reach jobs k 0 0
  | step (m s : Nat) (msg : Option Nat)
      (h : Reach jobs k m s) (hw : s < k)
      (hm : (msgs jobs k).get? m = some msg) :
      Reach jobs k (m + 1) (s + if msg.isNone then 1 else 0)

/-- The jobs executed after `m` messages have been consumed: every
consumed job message, in order. -/
def executed (jobs : List Nat) (k m : Nat) : List Nat :=
  ((msgs jobs k).take m).filterMap id

/-- threadpool.rs:21-24 as far as the claims need it: the worker count,
and whether the `Receiver` is still alive when `new` returns.  The only
owners of the receiver's `Arc` after `new` (threadpool.rs:31-47) are
the worker threads, so with zero workers the receiver is dropped before
`new` returns. -/
structure ThreadPool where
  workers : Nat
  receiverAlive : Bool
deriving DecidableEq

/-- threadpool.rs:31-47. -/
def new (num_workers : Nat) : ThreadPool :=
  ⟨num_workers, decide (0 < num_workers)⟩

/-- threadpool.rs:50-56: `self.sender.send(Some(job)).unwrap()` — the
send returns `Err` (and the unwrap panics) exactly when the receiver
has been dropped. -/
def execute (p : ThreadPool) : Outcome Unit :=
  if p.receiverAlive then .ok () else .panicked

/-- One worker's view of the messages it happens to receive:
`some true` a job that runs to completion, `some false` a job that
panics (threadpool.rs:40: `job.call_box()` unwinds the worker), `none`
a kill message.  Returns how many jobs the worker executed to
completion and how the worker ended. -/
def workerRun : List (Option Bool) → Nat × Outcome Unit
  | [] => (0, .ok ())
  | none :: _ => (0, .ok ())
  | some true :: r => ((workerRun r).1 + 1, (workerRun r).2)
  | some false :: _ => (0, .panicked)

end Threadpool

/-- A run whose single feed "fa" yields one article whose URL equals
the feed's own URL: the shared seen-set already contains it. -/
def envSharedSet : Env :=
  { seed := .ok [⟨some "fa", some "F"⟩]
    fetchParse := fun u => if u == "fa" then .ok [⟨some "fa", some "A"⟩] else .error .fetchError
    host := fun u => if u == "fa" then .ok (some "a") else .error .urlError
    extract := fun _ _ => .ok ["w"] }

/-- The same run except the article URL "a1" differs from the feed URL. -/
def envSharedSetB : Env :=
  { envSharedSet with
    fetchParse := fun u => if u == "fa" then .ok [⟨some "a1", some "A"⟩] else .error .fetchError }

/-- A run whose single article's word extraction fails. -/
def envExtractFails : Env :=
  { envSharedSetB with extract := fun _ _ => .error .fetchError }

/-- A run with two articles, the first failing extraction, the second fine. -/
def envFirstArticleFails : Env :=
  { seed := .ok [⟨some "fa", some "F"⟩]
    fetchParse := fun u =>
      if u == "fa" then .ok [⟨some "a1", some "A"⟩, ⟨some "a2", some "B"⟩]
      else .error .fetchError
    host := fun u => if u == "fa" then .ok (some "a") else .error .urlError
    extract := fun u _ => if u == "a1" then .error .fetchError else .ok ["w"] }

/-- A seed whose first entry is fine and second entry has no link. -/
def envBadSecondSeed : Env :=
  { seed := .ok [⟨some "fa", some "F"⟩, ⟨none, some "G"⟩]
    fetchParse := fun _ => .ok []
    host := fun _ => .ok (some "a")
    extract := fun _ _ => .ok ["w"] }

/-- A seed whose only entry has no link. -/
def envNoLinkSeed : Env :=
  { seed := .ok [⟨none, some "T"⟩]
    fetchParse := fun _ => .ok []
    host := fun _ => .ok (some "a")
    extract := fun _ _ => .ok ["w"] }

namespace Gate

theorem lookup0_setv_self (m : List (String × Nat)) (k : String) (v : Nat) :
    lookup0 (setv m k v) k = v := by
  induction m with
  | nil => simp [setv, lookup0, List.find?]
  | cons p r ih =>
    obtain ⟨k1, v1⟩ := p
    by_cases h : k1 = k
    · simp [setv, h, lookup0, List.find?]
    · have hb : (k1 == k) = false := by simp [h]
      simp only [setv, hb, if_false]
      simpa [lookup0, List.find?, hb] using ih

theorem lookup0_setv_other (m : List (String × Nat)) (k k2 : String) (v : Nat)
    (h : k2 ≠ k) : lookup0 (setv m k v) k2 = lookup0 m k2 := by
  have hne : ¬ k = k2 := fun hh => h hh.symm
  induction m with
  | nil =>
    have hb : (k == k2) = false := by simpa using hne
    simp [setv, lookup0, List.find?, hb]
  | cons p r ih =>
    obtain ⟨k1, v1⟩ := p
    by_cases h1 : k1 = k
    · have hb : (k == k2) = false := by simpa using hne
      have hb1 : (k1 == k2) = false := by rw [h1]; simpa using hne
      have hbk : (k1 == k) = true := by simpa using h1
      simp [setv, hbk, lookup0, List.find?, hb, hb1]
    · have hb1 : (k1 == k) = false := by simpa using h1
      by_cases h2 : k1 = k2
      · have hb2 : (k1 == k2) = true := by simpa using h2
        simp [setv, hb1, lookup0, List.find?, hb2]
      · have hb2 : (k1 == k2) = false := by simpa using h2
        simp only [setv, hb1, Bool.false_eq_true, if_false]
        simpa [lookup0, List.find?, hb2] using ih

theorem lookup0_setv_le (m : List (String × Nat)) (k : String) (v n : Nat)
    (hv : v ≤ n) (hm : ∀ k2, lookup0 m k2 ≤ n) :
    ∀ k2, lookup0 (setv m k v) k2 ≤ n := by
  intro k2
  by_cases hk : k2 = k
  · rw [hk, lookup0_setv_self]
    exact hv
  · rw [lookup0_setv_other _ _ _ _ hk]
    exact hm k2

end Gate

namespace Dedup

theorem contains_append_self (seen : List String) (u : String) :
    (seen ++ [u]).contains u = true := by
  induction seen with
  | nil => simp [List.contains]
  | cons x r ih =>
    rcases h : (x == u) with hfalse | htrue
    · simp [List.contains, h, ih]
    · simp [List.contains, h]

theorem runAtomic_seen (u : String) (n : Nat) (seen : List String)
    (h : seen.contains u = true) : runAtomic u n seen = List.replicate n false := by
  induction n generalizing seen with
  | zero => simp [runAtomic]
  | succ n ih =>
    simp only [runAtomic, checkAndInsert, h, if_true]
    rw [List.replicate_succ, ih seen h]

end Dedup

/-- C4: at every reachable state of the gate-strategy counters, the
total count is at most 18, the feed count at most 5, and every
site-keyed count at most 10. -/
theorem c4_gate_bounds (t : Gate.ThreadCount) (h : Gate.Reach t) : Gate.Bounded t := by
  induction h with
  | init =>
    refine ⟨by simp [Gate.initCount], by simp [Gate.initCount], fun k => ?_⟩
    simp [Gate.initCount, Gate.lookup0, List.find?]
  | step hr hs ih =>
    obtain ⟨iht, ihf, ihs⟩ := ih
    cases hs with
    | acquireTotal hlt => exact ⟨hlt, ihf, ihs⟩
    | acquireFeeds hlt => exact ⟨iht, hlt, ihs⟩
    | acquireSite k hlt =>
      exact ⟨iht, ihf, Gate.lookup0_setv_le _ k _ _ hlt ihs⟩
    | releaseTotal => exact ⟨Nat.le_trans (Nat.sub_le _ _) iht, ihf, ihs⟩
    | releaseFeeds => exact ⟨iht, Nat.le_trans (Nat.sub_le _ _) ihf, ihs⟩
    | releaseSite k =>
      exact ⟨iht, ihf,
        Gate.lookup0_setv_le _ k _ _ (Nat.le_trans (Nat.sub_le _ _) (ihs k)) ihs⟩

/-- Witness for C4: the reachability hypothesis is satisfiable — the
initial state is reachable and the bounds evaluate there. -/
theorem c4_gate_bounds_witness : Gate.Reach Gate.initCount ∧ Gate.Bounded Gate.initCount :=
  ⟨Gate.Reach.init, c4_gate_bounds Gate.initCount Gate.Reach.init⟩

/-- C1 counterexample: the claim fails on the code as written.  With the
two separate critical sections of multi.rs:60-64 / 131-135, the
interleaving check(A), check(B), insert(A), insert(B) of two tasks
presenting the same URL leaves BOTH tasks believing they are first
(both checks returned false), so it is not true that exactly one
check-and-insert returns true. -/
theorem c1_counterexample :
    Dedup.believesFirst (Dedup.run2 "u" "u" [true, false, true, false] (Dedup.initT [])).resA ∧
    Dedup.believesFirst (Dedup.run2 "u" "u" [true, false, true, false] (Dedup.initT [])).resB := by
  decide

/-- C1 amended: the check and the insert are two separate critical
sections, so atomicity of check-and-insert fails (see the
counterexample).  What holds is: (a) when the two tasks do not
interleave (each task's check and insert run back to back, in either
order), exactly one task believes it is first; and (b) for the
indivisible `check_and_insert` of the spec's Dedup-Set contract, for
any number of concurrent callers presenting the same absent URL,
exactly one call returns true and all others return false. -/
theorem c1_amended :
    (∀ seen : List String, seen.contains "u" = false →
      (Dedup.believesFirst (Dedup.run2 "u" "u" [true, true, false, false] (Dedup.initT seen)).resA ∧
        ¬ Dedup.believesFirst (Dedup.run2 "u" "u" [true, true, false, false] (Dedup.initT seen)).resB) ∧
      (Dedup.believesFirst (Dedup.run2 "u" "u" [false, false, true, true] (Dedup.initT seen)).resB ∧
        ¬ Dedup.believesFirst (Dedup.run2 "u" "u" [false, false, true, true] (Dedup.initT seen)).resA)) ∧
    (∀ (u : String) (n : Nat) (seen : List String), seen.contains u = false →
      Dedup.runAtomic u (n + 1) seen = true :: List.replicate n false) := by
  constructor
  · intro seen h
    have h2 : ¬ ("u" ∈ seen) := by simpa using h
    refine ⟨⟨?_, ?_⟩, ⟨?_, ?_⟩⟩ <;>
      simp [Dedup.run2, Dedup.stepTask, Dedup.initT, h2, Dedup.believesFirst]
  · intro u n seen h
    simp only [Dedup.runAtomic, Dedup.checkAndInsert, h, Bool.false_eq_true, if_false]
    rw [Dedup.runAtomic_seen u n _ (Dedup.contains_append_self seen u)]

/-- Witness for C1's amended theorem at a concrete input. -/
theorem c1_amended_witness :
    (Dedup.believesFirst (Dedup.run2 "u" "u" [true, true, false, false] (Dedup.initT [])).resA ∧
      ¬ Dedup.believesFirst (Dedup.run2 "u" "u" [true, true, false, false] (Dedup.initT [])).resB) ∧
    Dedup.runAtomic "u" 3 [] = true :: List.replicate 2 false :=
  ⟨(c1_amended.1 [] (by decide)).1, c1_amended.2 "u" 2 [] (by decide)⟩

theorem Multi.feedLoop_skip_seen (env : Env) (fu : String) (h : Option String)
    (hh : env.host fu = .ok h) (u t : String) (rest : List Item) (st : RunState)
    (hs : List AHandle) (hu : st.urls.contains u = true) :
    Multi.feedLoop env fu (⟨some u, some t⟩ :: rest) st hs = Multi.feedLoop env fu rest st hs := by
  have hu2 : u ∈ st.urls := by simpa using hu
  cases h with
  | none => simp [Multi.feedLoop, hh]
  | some s => simp [Multi.feedLoop, hh, hu2]

theorem Multi.feedLoop_skip_missing (env : Env) (fu : String) (h : Option String)
    (hh : env.host fu = .ok h) (bad : Item) (hbad : bad.link = none ∨ bad.title = none) :
    ∀ (pre post : List Item) (st : RunState) (hs : List AHandle),
      Multi.feedLoop env fu (pre ++ bad :: post) st hs =
        Multi.feedLoop env fu (pre ++ post) st hs := by
  intro pre
  induction pre with
  | nil =>
    intro post st hs
    simp only [List.nil_append]
    rcases hlnk : bad.link with _ | u
    · cases h with
      | none => simp [Multi.feedLoop, hh, hlnk]
      | some s => simp [Multi.feedLoop, hh, hlnk]
    · have ht : bad.title = none := by
        rcases hbad with hl | ht
        · rw [hl] at hlnk; cases hlnk
        · exact ht
      cases h with
      | none => simp [Multi.feedLoop, hh, hlnk]
      | some s => simp [Multi.feedLoop, hh, hlnk, ht]
  | cons p pre ih =>
    intro post st hs
    simp only [List.cons_append]
    cases h with
    | none =>
      rcases hpl : p.link with _ | u
      · simp [Multi.feedLoop, hh, hpl, ih]
      · rcases hpt : p.title with _ | t
        · simp [Multi.feedLoop, hh, hpl, hpt, ih]
        · simp [Multi.feedLoop, hh, hpl, hpt, ih]
    | some s =>
      rcases hpl : p.link with _ | u
      · simp [Multi.feedLoop, hh, hpl, ih]
      · rcases hpt : p.title with _ | t
        · simp [Multi.feedLoop, hh, hpl, hpt, ih]
        · cases hc : st.urls.contains u with
          | true => simp [Multi.feedLoop, hh, hpl, hpt, hc, ih]
          | false => simp [Multi.feedLoop, hh, hpl, hpt, hc, ih]

theorem Multi.seedLoop_urls_inv :
    ∀ (items : List Item) (st : RunState) (fs : List String)
      (res : Option RssIndexError) (st1 : RunState) (fs1 : List String),
      Multi.seedLoop items st fs = (res, st1, fs1) →
      (∀ u, u ∈ fs → u ∈ st.urls) →
      (∀ u, u ∈ st.urls → u ∈ st1.urls) ∧ (∀ u, u ∈ fs1 → u ∈ st1.urls) := by
  intro items
  induction items with
  | nil =>
    intro st fs res st1 fs1 hrun h2
    simp only [Multi.seedLoop, Prod.mk.injEq] at hrun
    obtain ⟨rfl, rfl, rfl⟩ := hrun
    exact ⟨fun u hu => hu, h2⟩
  | cons item rest ih =>
    intro st fs res st1 fs1 hrun h2
    rcases hlnk : item.link with _ | url
    · simp only [Multi.seedLoop, hlnk, Prod.mk.injEq] at hrun
      obtain ⟨rfl, rfl, rfl⟩ := hrun
      exact ⟨fun u hu => hu, h2⟩
    · rcases htl : item.title with _ | tt
      · simp only [Multi.seedLoop, hlnk, htl, Prod.mk.injEq] at hrun
        obtain ⟨rfl, rfl, rfl⟩ := hrun
        exact ⟨fun u hu => hu, h2⟩
      · cases hc : st.urls.contains url with
        | true =>
          simp only [Multi.seedLoop, hlnk, htl, hc, if_true] at hrun
          exact ih st fs res st1 fs1 hrun h2
        | false =>
          simp only [Multi.seedLoop, hlnk, htl, hc, Bool.false_eq_true, if_false] at hrun
          have h2a : ∀ u, u ∈ fs ++ [url] → u ∈ st.urls ++ [url] := by
            intro u hu
            rcases List.mem_append.mp hu with hu1 | hu1
            · exact List.mem_append_left _ (h2 u hu1)
            · exact List.mem_append_right _ hu1
          have r := ih _ _ res st1 fs1 hrun h2a
          exact ⟨fun u hu => r.1 u (List.mem_append_left _ hu), r.2⟩

theorem Multi.seedLoop_fail (bad : Item) (hbad : bad.link = none ∨ bad.title = none) :
    ∀ (pre post : List Item) (st : RunState) (fs : List String),
      (∀ it, it ∈ pre → it.link ≠ none ∧ it.title ≠ none) →
      (Multi.seedLoop (pre ++ bad :: post) st fs).1 = some RssIndexError.urlError := by
  intro pre
  induction pre with
  | nil =>
    intro post st fs _
    simp only [List.nil_append]
    rcases hlnk : bad.link with _ | u
    · simp [Multi.seedLoop, hlnk]
    · have ht : bad.title = none := by
        rcases hbad with hl | ht
        · rw [hl] at hlnk; cases hlnk
        · exact ht
      simp [Multi.seedLoop, hlnk, ht]
  | cons p pre ih =>
    intro post st fs hpre
    have hp := hpre p (List.mem_cons_self p pre)
    rcases hpl : p.link with _ | u
    · exact absurd hpl hp.1
    · rcases hpt : p.title with _ | t
      · exact absurd hpt hp.2
      · have hpre2 : ∀ it, it ∈ pre → it.link ≠ none ∧ it.title ≠ none :=
          fun it hit => hpre it (List.mem_cons_of_mem p hit)
        cases hc : st.urls.contains u with
        | true =>
          simp only [List.cons_append, Multi.seedLoop, hpl, hpt, hc, if_true]
          exact ih post st fs hpre2
        | false =>
          simp only [List.cons_append, Multi.seedLoop, hpl, hpt, hc,
            Bool.false_eq_true, if_false]
          exact ih post _ _ hpre2

theorem Multi.feedLoop_no_host (env : Env) (fu : String)
    (hh : env.host fu = .ok none) :
    ∀ (items : List Item) (st : RunState) (hs : List AHandle),
      Multi.feedLoop env fu items st hs = (none, st, hs) := by
  intro items
  induction items with
  | nil => intro st hs; rfl
  | cons item rest ih =>
    intro st hs
    rcases hlnk : item.link with _ | u
    · simp [Multi.feedLoop, hh, hlnk, ih]
    · simp [Multi.feedLoop, hh, hlnk, ih]

/-- C7 counterexample: on a seed entry with no link, `process_feed_file`
fails the run with `RssIndexError::UrlError` (multi.rs:57), not with a
MissingFieldError as the claim states. -/
theorem c7_counterexample :
    (Multi.processFeedFile envNoLinkSeed).1 = .err .urlError ∧
    (Multi.processFeedFile envNoLinkSeed).1 ≠ .err .missingFieldError := by
  exact ⟨by decide, by decide⟩

/-- C7 amended: a seed-level entry lacking a link or a title fails the
whole run with `UrlError` (not MissingFieldError); an entry of a
fetched feed lacking a link or a title is silently skipped and
processing continues with the remaining entries. -/
theorem c7_amended :
    (∀ (env : Env) (pre : List Item) (bad : Item) (post : List Item),
      env.seed = .ok (pre ++ bad :: post) →
      (∀ it, it ∈ pre → it.link ≠ none ∧ it.title ≠ none) →
      (bad.link = none ∨ bad.title = none) →
      (Multi.processFeedFile env).1 = .err .urlError) ∧
    (∀ (env : Env) (fu : String) (h : Option String) (bad : Item)
        (pre post : List Item) (st : RunState) (hs : List AHandle),
      env.host fu = .ok h →
      (bad.link = none ∨ bad.title = none) →
      Multi.feedLoop env fu (pre ++ bad :: post) st hs =
        Multi.feedLoop env fu (pre ++ post) st hs) ∧
    (∀ (env : Env) (fu : String) (items : List Item) (st : RunState) (hs : List AHandle),
      env.host fu = .ok none →
      Multi.feedLoop env fu items st hs = (none, st, hs)) := by
  refine ⟨?_, ?_, ?_⟩
  · intro env pre bad post hseed hpre hbad
    have hfail := Multi.seedLoop_fail bad hbad pre post initState [] hpre
    rcases hrun : Multi.seedLoop (pre ++ bad :: post) initState [] with ⟨res, st1, fs1⟩
    rw [hrun] at hfail
    simp only at hfail
    subst hfail
    simp [Multi.processFeedFile, hseed, hrun]
  · intro env fu h bad pre post st hs hh hbad
    exact Multi.feedLoop_skip_missing env fu h hh bad hbad pre post st hs
  · intro env fu items st hs hh
    exact Multi.feedLoop_no_host env fu hh items st hs

/-- Witness for C7's amended theorem at concrete inputs. -/
theorem c7_amended_witness :
    (Multi.processFeedFile envNoLinkSeed).1 = .err .urlError ∧
    Multi.feedLoop envSharedSetB "fa" [⟨none, some "X"⟩] initState [] =
      Multi.feedLoop envSharedSetB "fa" [] initState [] ∧
    Multi.feedLoop { envSharedSet with host := fun _ => .ok none } "fa"
      [⟨some "x", some "y"⟩] initState [] = (none, initState, []) := by
  refine ⟨?_, ?_, ?_⟩
  · exact c7_amended.1 envNoLinkSeed [] ⟨none, some "T"⟩ [] rfl
      (fun it hit => absurd hit (List.not_mem_nil it)) (Or.inl rfl)
  · exact c7_amended.2.1 envSharedSetB "fa" (some "a") ⟨none, some "X"⟩ [] [] initState []
      rfl (Or.inl rfl)
  · exact c7_amended.2.2 { envSharedSet with host := fun _ => .ok none } "fa"
      [⟨some "x", some "y"⟩] initState [] rfl

/-- C8 counterexample: the feed-level and article-level seen-sets are
the SAME instance (multi.rs:47 creates one set, line 90 passes it into
`process_feed`, line 131 uses it for article dedup).  A run whose only
feed "fa" yields an article whose URL equals the feed URL completes
with an EMPTY index — the article is skipped, not processed — while the
identical run with a distinct article URL "a1" indexes it. -/
theorem c8_counterexample :
    (Multi.processFeedFile envSharedSet).1 = .ok () ∧
    (Multi.processFeedFile envSharedSet).2.index = [] ∧
    (Multi.processFeedFile envSharedSetB).2.index = [("a", "A", "a1", ["w"])] := by
  exact ⟨by decide, by decide, by decide⟩

/-- C8 amended: within one run there is a single shared SeenSet used by
both the feed level and the article level: every feed URL the seed loop
processes is inserted into the run's one URL set, and an article whose
URL is already in that set — in particular one equal to a previously
processed feed URL — is skipped by the article loop, not processed. -/
theorem c8_amended :
    (∀ (env : Env) (fu : String) (h : Option String) (u t : String) (rest : List Item)
        (st : RunState) (hs : List AHandle),
      env.host fu = .ok h → st.urls.contains u = true →
      Multi.feedLoop env fu (⟨some u, some t⟩ :: rest) st hs =
        Multi.feedLoop env fu rest st hs) ∧
    (∀ (items : List Item) (res : Option RssIndexError) (st1 : RunState) (fs1 : List String),
      Multi.seedLoop items initState [] = (res, st1, fs1) →
      ∀ u, u ∈ fs1 → u ∈ st1.urls) := by
  constructor
  · exact fun env fu h u t rest st hs hh hu =>
      Multi.feedLoop_skip_seen env fu h hh u t rest st hs hu
  · intro items res st1 fs1 hrun
    exact (Multi.seedLoop_urls_inv items initState [] res st1 fs1 hrun
      (fun u hu => absurd hu (List.not_mem_nil u))).2

/-- Witness for C8's amended theorem at concrete inputs. -/
theorem c8_amended_witness :
    Multi.feedLoop envSharedSet "fa" [⟨some "fa", some "A"⟩]
        (⟨["fa"], [], [.feed "fa"], [], []⟩ : RunState) [] =
      Multi.feedLoop envSharedSet "fa" [] (⟨["fa"], [], [.feed "fa"], [], []⟩ : RunState) [] ∧
    "fa" ∈ (⟨["fa"], [], [.feed "fa"], [], []⟩ : RunState).urls := by
  constructor
  · exact c8_amended.1 envSharedSet "fa" (some "a") "fa" "A" []
      (⟨["fa"], [], [.feed "fa"], [], []⟩ : RunState) [] rfl (by decide)
  · exact c8_amended.2 [⟨some "fa", some "F"⟩] none
      (⟨["fa"], [], [.feed "fa"], [], []⟩ : RunState) ["fa"] rfl "fa" (by decide)

/-- C3 counterexample: an error inside a spawned task is NOT
task-local.  With one article whose extraction fails, the article
thread panics (`process_article(&article).unwrap()`), the feed task's
`handle.join().unwrap()` re-panics, and so does
`process_feed_file`'s — the whole run panics instead of completing.
With two articles of which the FIRST fails, the run panics and the
second article is not indexed before the crash. -/
theorem c3_counterexample :
    (Multi.processFeedFile envExtractFails).1 = .panicked ∧
    (Multi.processFeedFile envFirstArticleFails).1 = .panicked ∧
    (Multi.processFeedFile envFirstArticleFails).2.index = [] := by
  exact ⟨by decide, by decide, by decide⟩

/-- C3 amended: a fetch or extraction error panics the task that hit it
(`unwrap`), and the panic propagates through every join:
`process_feed` panics at the article join, the feed task panics, and
`process_feed_file` panics at the feed join — the error is not
task-local and the orchestrator does not complete.  In the pool
strategy a worker that runs a failing job panics and stops serving the
queue: nothing it would have received afterwards is executed by it. -/
theorem c3_amended :
    (∀ (env : Env) (h : AHandle) (st : RunState) (e : RssIndexError),
      env.extract h.url h.title = .error e → (Multi.articleTask env h st).1 = .panicked) ∧
    (∀ (env : Env) (h : AHandle) (rest : List AHandle) (st : RunState),
      (Multi.articleTask env h st).1 = .panicked →
      (Multi.joinArticles env (h :: rest) st).1 = .panicked) ∧
    (∀ (env : Env) (u : String) (st : RunState),
      (Multi.processFeed env u st).1 = .panicked → (Multi.feedTask env u st).1 = .panicked) ∧
    (∀ (env : Env) (u : String) (rest : List String) (st : RunState),
      (Multi.feedTask env u st).1 = .panicked →
      (Multi.joinFeeds env (u :: rest) st).1 = .panicked) ∧
    (∀ (n : Nat) (post : List (Option Bool)),
      Threadpool.workerRun (List.replicate n (some true) ++ some false :: post) =
        (n, .panicked)) := by
  refine ⟨?_, ?_, ?_, ?_, ?_⟩
  · intro env h st e he
    simp [Multi.articleTask, he]
  · intro env h rest st hp
    rcases heq : Multi.articleTask env h st with ⟨o, st1⟩
    rw [heq] at hp
    simp only at hp
    subst hp
    simp [Multi.joinArticles, heq]
  · intro env u st hp
    rcases heq : Multi.processFeed env u st with ⟨o, st1⟩
    rw [heq] at hp
    simp only at hp
    subst hp
    simp [Multi.feedTask, heq]
  · intro env u rest st hp
    rcases heq : Multi.feedTask env u st with ⟨o, st1⟩
    rw [heq] at hp
    simp only at hp
    subst hp
    simp [Multi.joinFeeds, heq]
  · intro n post
    induction n with
    | zero => simp [Threadpool.workerRun]
    | succ n ih =>
      rw [List.replicate_succ]
      simp [Threadpool.workerRun, ih]

/-- Witness for C3's amended theorem at concrete inputs. -/
theorem c3_amended_witness :
    (Multi.articleTask envExtractFails ⟨"a", "A", "a1", Multi.articleDispatchEvs⟩ initState).1
      = .panicked ∧
    (Multi.joinArticles envExtractFails [⟨"a", "A", "a1", Multi.articleDispatchEvs⟩]
      initState).1 = .panicked ∧
    (Multi.feedTask envExtractFails "fa" initState).1 = .panicked ∧
    (Multi.joinFeeds envExtractFails ["fa"] initState).1 = .panicked ∧
    Threadpool.workerRun [some true, some false, none] = (1, .panicked) := by
  refine ⟨?_, ?_, ?_, ?_, ?_⟩
  · exact c3_amended.1 envExtractFails ⟨"a", "A", "a1", Multi.articleDispatchEvs⟩
      initState .fetchError rfl
  · exact c3_amended.2.1 envExtractFails ⟨"a", "A", "a1", Multi.articleDispatchEvs⟩ []
      initState (by decide)
  · exact c3_amended.2.2.1 envExtractFails "fa" initState (by decide)
  · exact c3_amended.2.2.2.1 envExtractFails "fa" [] initState (by decide)
  · exact c3_amended.2.2.2.2 1 [none]

/-- C2 counterexample: the counters are NOT decremented on a failing
exit path.  A feed task whose fetch fails and an article task whose
extraction fails both panic with the counters exactly as they were:
with total = 1 beforehand, the total counter is still 1 afterwards,
not 0. -/
theorem c2_counterexample :
    Multi.feedTaskCounters envSharedSet "zz" initState
        (⟨1, [("a", 1)], 1⟩ : Gate.ThreadCount) = (.panicked, ⟨1, [("a", 1)], 1⟩) ∧
    Multi.articleTaskCounters envExtractFails ⟨"a", "A", "a1", Multi.articleDispatchEvs⟩
        (⟨1, [("a", 1)], 1⟩ : Gate.ThreadCount) = (.panicked, ⟨1, [("a", 1)], 1⟩) ∧
    ((⟨1, [("a", 1)], 1⟩ : Gate.ThreadCount).total_count ≠
      (⟨1, [("a", 1)], 1⟩ : Gate.ThreadCount).total_count - 1) := by
  exact ⟨by decide, by decide, by decide⟩

/-- C2 amended: the total and scoped counters are decremented exactly
on the successful exit path of a task; when the task's fetch, parse or
word-extraction step fails, the task panics (`unwrap`) before the
release blocks and neither counter is decremented. -/
theorem c2_amended :
    ∀ (env : Env) (url : String) (st : RunState) (h : AHandle) (t : Gate.ThreadCount),
    ((Multi.feedTaskCounters env url st t).1 = .ok () →
      (Multi.feedTaskCounters env url st t).2.total_count = t.total_count - 1 ∧
      (Multi.feedTaskCounters env url st t).2.feeds_count = t.feeds_count - 1) ∧
    ((Multi.feedTaskCounters env url st t).1 = .panicked →
      (Multi.feedTaskCounters env url st t).2 = t) ∧
    ((Multi.articleTaskCounters env h t).1 = .ok () →
      (Multi.articleTaskCounters env h t).2.total_count = t.total_count - 1 ∧
      Gate.lookup0 (Multi.articleTaskCounters env h t).2.sites_count h.site =
        Gate.lookup0 t.sites_count h.site - 1) ∧
    ((Multi.articleTaskCounters env h t).1 = .panicked →
      (Multi.articleTaskCounters env h t).2 = t) := by
  intro env url st h t
  refine ⟨?_, ?_, ?_, ?_⟩
  · intro hok
    rcases hpf : (Multi.processFeed env url st).1 with _ | e | _
    · simp [Multi.feedTaskCounters, hpf, Multi.releaseFeedsOp, Multi.releaseTotalOp]
    · rw [show Multi.feedTaskCounters env url st t = (.panicked, t) by
        simp [Multi.feedTaskCounters, hpf]] at hok
      cases hok
    · rw [show Multi.feedTaskCounters env url st t = (.panicked, t) by
        simp [Multi.feedTaskCounters, hpf]] at hok
      cases hok
  · intro hpan
    rcases hpf : (Multi.processFeed env url st).1 with _ | e | _
    · rw [show Multi.feedTaskCounters env url st t =
          (.ok (), Multi.releaseFeedsOp (Multi.releaseTotalOp t)) by
        simp [Multi.feedTaskCounters, hpf]] at hpan
      cases hpan
    · simp [Multi.feedTaskCounters, hpf]
    · simp [Multi.feedTaskCounters, hpf]
  · intro hok
    rcases hex : env.extract h.url h.title with e | ws
    · rw [show Multi.articleTaskCounters env h t = (.panicked, t) by
        simp [Multi.articleTaskCounters, hex]] at hok
      cases hok
    · refine ⟨by simp [Multi.articleTaskCounters, hex, Multi.releaseSiteOp,
        Multi.releaseTotalOp], ?_⟩
      simp only [Multi.articleTaskCounters, hex, Multi.releaseSiteOp, Multi.releaseTotalOp]
      exact Gate.lookup0_setv_self _ _ _
  · intro hpan
    rcases hex : env.extract h.url h.title with e | ws
    · simp [Multi.articleTaskCounters, hex]
    · rw [show Multi.articleTaskCounters env h t =
          (.ok (), Multi.releaseSiteOp (Multi.releaseTotalOp t) h.site) by
        simp [Multi.articleTaskCounters, hex]] at hpan
      cases hpan

/-- Witness for C2's amended theorem at concrete inputs: a successful
feed task decrements total and feeds; a failing article task leaves the
counters untouched. -/
theorem c2_amended_witness :
    ((Multi.feedTaskCounters envSharedSetB "fa" initState
        (⟨2, [("a", 3)], 5⟩ : Gate.ThreadCount)).2.total_count =
      (⟨2, [("a", 3)], 5⟩ : Gate.ThreadCount).total_count - 1 ∧
    (Multi.feedTaskCounters envSharedSetB "fa" initState
        (⟨2, [("a", 3)], 5⟩ : Gate.ThreadCount)).2.feeds_count =
      (⟨2, [("a", 3)], 5⟩ : Gate.ThreadCount).feeds_count - 1) ∧
    (Multi.articleTaskCounters envExtractFails ⟨"a", "A", "a1", Multi.articleDispatchEvs⟩
        (⟨2, [("a", 3)], 5⟩ : Gate.ThreadCount)).2 = (⟨2, [("a", 3)], 5⟩ : Gate.ThreadCount) := by
  constructor
  · exact (c2_amended envSharedSetB "fa" initState ⟨"a", "A", "a1", Multi.articleDispatchEvs⟩
      (⟨2, [("a", 3)], 5⟩ : Gate.ThreadCount)).1 (by decide)
  · exact (c2_amended envExtractFails "fa" initState ⟨"a", "A", "a1", Multi.articleDispatchEvs⟩
      (⟨2, [("a", 3)], 5⟩ : Gate.ThreadCount)).2.2.2 (by decide)

theorem Multi.joinArticles_ok (env : Env) :
    ∀ (hs : List AHandle) (st st1 : RunState),
      Multi.joinArticles env hs st = (.ok (), st1) →
      (∀ hh, hh ∈ hs → TaskId.art hh.url ∈ st1.completed) ∧
      (∀ id, id ∈ st.completed → id ∈ st1.completed) ∧
      st1.spawned = st.spawned := by
  intro hs
  induction hs with
  | nil =>
    intro st st1 hrun
    simp only [Multi.joinArticles, Prod.mk.injEq] at hrun
    obtain ⟨-, rfl⟩ := hrun
    exact ⟨fun hh hmem => absurd hmem (List.not_mem_nil hh), fun id h => h, rfl⟩
  | cons h rest ih =>
    intro st st1 hrun
    rcases hex : env.extract h.url h.title with e | ws
    · rw [show Multi.joinArticles env (h :: rest) st =
          (.panicked, { st with logs := st.logs ++ [(.art h.url, h.evs ++ [.work])] }) by
        simp [Multi.joinArticles, Multi.articleTask, hex]] at hrun
      exact absurd (congrArg Prod.fst hrun) (by simp)
    · rw [show Multi.joinArticles env (h :: rest) st =
          Multi.joinArticles env rest { st with
            index := st.index ++ [(h.site, h.title, h.url, ws)],
            completed := st.completed ++ [TaskId.art h.url],
            logs := st.logs ++ [(.art h.url, h.evs ++ [.work, .relTotal, .relScoped])] } by
        simp [Multi.joinArticles, Multi.articleTask, hex]] at hrun
      obtain ⟨ihmem, ihmono, ihsp⟩ := ih _ _ hrun
      refine ⟨?_, ?_, ?_⟩
      · intro hh hmem
        rcases List.mem_cons.mp hmem with rfl | hmem2
        · exact ihmono (TaskId.art hh.url) (List.mem_append_right _ (by simp))
        · exact ihmem hh hmem2
      · intro id hid
        exact ihmono id (List.mem_append_left _ hid)
      · exact ihsp

theorem Multi.feedLoop_spawned (env : Env) (fu : String) :
    ∀ (items : List Item) (st : RunState) (hs : List AHandle)
      (res : Option RssIndexError) (st1 : RunState) (hs1 : List AHandle),
      Multi.feedLoop env fu items st hs = (res, st1, hs1) →
      (∀ id, id ∈ st1.spawned →
        id ∈ st.spawned ∨ ∃ hh, hh ∈ hs1 ∧ id = TaskId.art hh.url) ∧
      st1.completed = st.completed ∧
      (∀ hh, hh ∈ hs → hh ∈ hs1) := by
  rcases hho : env.host fu with e | hOpt
  · intro items st hs res st1 hs1 hrun
    cases items with
    | nil =>
      simp only [Multi.feedLoop, Prod.mk.injEq] at hrun
      obtain ⟨-, rfl, rfl⟩ := hrun
      exact ⟨fun id h => Or.inl h, rfl, fun hh h => h⟩
    | cons item rest =>
      simp only [Multi.feedLoop, hho, Prod.mk.injEq] at hrun
      obtain ⟨-, rfl, rfl⟩ := hrun
      exact ⟨fun id h => Or.inl h, rfl, fun hh h => h⟩
  · intro items
    induction items with
    | nil =>
      intro st hs res st1 hs1 hrun
      simp only [Multi.feedLoop, Prod.mk.injEq] at hrun
      obtain ⟨-, rfl, rfl⟩ := hrun
      exact ⟨fun id h => Or.inl h, rfl, fun hh h => h⟩
    | cons item rest ih =>
      intro st hs res st1 hs1 hrun
      rcases hlnk : item.link with _ | u
      · simp only [Multi.feedLoop, hho, hlnk] at hrun
        exact ih st hs res st1 hs1 hrun
      · rcases hopt : hOpt with _ | s
        · subst hopt
          simp only [Multi.feedLoop, hho, hlnk] at hrun
          exact ih st hs res st1 hs1 hrun
        · subst hopt
          rcases htl : item.title with _ | t
          · simp only [Multi.feedLoop, hho, hlnk, htl] at hrun
            exact ih st hs res st1 hs1 hrun
          · cases hc : st.urls.contains u with
            | true =>
              simp only [Multi.feedLoop, hho, hlnk, htl, hc, if_true] at hrun
              exact ih st hs res st1 hs1 hrun
            | false =>
              simp only [Multi.feedLoop, hho, hlnk, htl, hc,
                Bool.false_eq_true, if_false] at hrun
              obtain ⟨p1, p2, p3⟩ := ih _ _ res st1 hs1 hrun
              refine ⟨?_, p2, ?_⟩
              · intro id hid
                rcases p1 id hid with hin | hex2
                · rcases List.mem_append.mp hin with hin1 | hin1
                  · exact Or.inl hin1
                  · refine Or.inr ⟨⟨s, t, u, Multi.articleDispatchEvs⟩, ?_, ?_⟩
                    · exact p3 _ (List.mem_append_right _ (by simp))
                    · simpa using hin1
                · exact Or.inr hex2
              · intro hh hmem
                exact p3 hh (List.mem_append_left _ hmem)

theorem Multi.processFeed_ok (env : Env) (u : String) (st st1 : RunState)
    (hrun : Multi.processFeed env u st = (.ok (), st1)) :
    (∀ id, id ∈ st1.spawned → id ∈ st.spawned ∨ id ∈ st1.completed) ∧
    (∀ id, id ∈ st.completed → id ∈ st1.completed) := by
  rcases hfp : env.fetchParse u with e | items
  · rw [show Multi.processFeed env u st = (.err e, st) by
      simp [Multi.processFeed, hfp]] at hrun
    exact absurd (congrArg Prod.fst hrun) (by simp)
  · rcases hfl : Multi.feedLoop env u items st [] with ⟨res, st2, hs⟩
    rcases res with _ | e
    · rw [show Multi.processFeed env u st = Multi.joinArticles env hs st2 by
        simp [Multi.processFeed, hfp, hfl]] at hrun
      obtain ⟨jmem, jmono, jsp⟩ := Multi.joinArticles_ok env hs st2 st1 hrun
      obtain ⟨p1, p2, -⟩ := Multi.feedLoop_spawned env u items st [] none st2 hs hfl
      refine ⟨?_, ?_⟩
      · intro id hid
        rw [jsp] at hid
        rcases p1 id hid with hin | ⟨hh, hhmem, rfl⟩
        · exact Or.inl hin
        · exact Or.inr (jmem hh hhmem)
      · intro id hid
        refine jmono id ?_
        rw [p2]
        exact hid
    · rw [show Multi.processFeed env u st = (.err e, st2) by
        simp [Multi.processFeed, hfp, hfl]] at hrun
      exact absurd (congrArg Prod.fst hrun) (by simp)

theorem Multi.feedTask_ok (env : Env) (u : String) (st st1 : RunState)
    (hrun : Multi.feedTask env u st = (.ok (), st1)) :
    (∀ id, id ∈ st1.spawned → id ∈ st.spawned ∨ id ∈ st1.completed) ∧
    TaskId.feed u ∈ st1.completed ∧
    (∀ id, id ∈ st.completed → id ∈ st1.completed) := by
  rcases hpf : Multi.processFeed env u st with ⟨o, st2⟩
  rcases o with ⟨⟨⟩⟩ | e | -
  · rw [show Multi.feedTask env u st = (.ok (), { st2 with
        completed := st2.completed ++ [TaskId.feed u],
        logs := st2.logs ++
          [(.feed u, Multi.feedDispatchEvs ++ [.work, .relTotal, .relScoped])] }) by
      simp [Multi.feedTask, hpf]] at hrun
    obtain ⟨p1, p2⟩ := Multi.processFeed_ok env u st st2 hpf
    have hst1 : st1 = { st2 with
        completed := st2.completed ++ [TaskId.feed u],
        logs := st2.logs ++
          [(.feed u, Multi.feedDispatchEvs ++ [.work, .relTotal, .relScoped])] } := by
      have := congrArg Prod.snd hrun
      exact this.symm
    subst hst1
    refine ⟨?_, ?_, ?_⟩
    · intro id hid
      rcases p1 id hid with hin | hin
      · exact Or.inl hin
      · exact Or.inr (List.mem_append_left _ hin)
    · exact List.mem_append_right _ (by simp)
    · intro id hid
      exact List.mem_append_left _ (p2 id hid)
  · rw [show Multi.feedTask env u st = (.panicked, { st2 with
        logs := st2.logs ++ [(.feed u, Multi.feedDispatchEvs ++ [.work])] }) by
      simp [Multi.feedTask, hpf]] at hrun
    exact absurd (congrArg Prod.fst hrun) (by simp)
  · rw [show Multi.feedTask env u st = (.panicked, { st2 with
        logs := st2.logs ++ [(.feed u, Multi.feedDispatchEvs ++ [.work])] }) by
      simp [Multi.feedTask, hpf]] at hrun
    exact absurd (congrArg Prod.fst hrun) (by simp)

theorem Multi.joinFeeds_ok (env : Env) :
    ∀ (fs : List String) (st st1 : RunState),
      Multi.joinFeeds env fs st = (.ok (), st1) →
      (∀ id, id ∈ st1.spawned → id ∈ st.spawned ∨ id ∈ st1.completed) ∧
      (∀ u, u ∈ fs → TaskId.feed u ∈ st1.completed) ∧
      (∀ id, id ∈ st.completed → id ∈ st1.completed) := by
  intro fs
  induction fs with
  | nil =>
    intro st st1 hrun
    simp only [Multi.joinFeeds, Prod.mk.injEq] at hrun
    obtain ⟨-, rfl⟩ := hrun
    exact ⟨fun id h => Or.inl h, fun u hu => absurd hu (List.not_mem_nil u), fun id h => h⟩
  | cons u rest ih =>
    intro st st1 hrun
    rcases hft : Multi.feedTask env u st with ⟨o, st2⟩
    rcases o with ⟨⟨⟩⟩ | e | -
    · rw [show Multi.joinFeeds env (u :: rest) st = Multi.joinFeeds env rest st2 by
        simp [Multi.joinFeeds, hft]] at hrun
      obtain ⟨q1, q2, q3⟩ := ih st2 st1 hrun
      obtain ⟨p1, p2, p3⟩ := Multi.feedTask_ok env u st st2 hft
      refine ⟨?_, ?_, ?_⟩
      · intro id hid
        rcases q1 id hid with hin | hin
        · rcases p1 id hin with hin2 | hin2
          · exact Or.inl hin2
          · exact Or.inr (q3 id hin2)
        · exact Or.inr hin
      · intro v hv
        rcases List.mem_cons.mp hv with rfl | hv2
        · exact q3 _ p2
        · exact q2 v hv2
      · intro id hid
        exact q3 id (p3 id hid)
    · rw [show Multi.joinFeeds env (u :: rest) st = (.err e, st2) by
        simp [Multi.joinFeeds, hft]] at hrun
      exact absurd (congrArg Prod.fst hrun) (by simp)
    · rw [show Multi.joinFeeds env (u :: rest) st = (.panicked, st2) by
        simp [Multi.joinFeeds, hft]] at hrun
      exact absurd (congrArg Prod.fst hrun) (by simp)

theorem Multi.seedLoop_spawned :
    ∀ (items : List Item) (st : RunState) (fs : List String)
      (res : Option RssIndexError) (st1 : RunState) (fs1 : List String),
      Multi.seedLoop items st fs = (res, st1, fs1) →
      (∀ id, id ∈ st1.spawned →
        id ∈ st.spawned ∨ ∃ u, u ∈ fs1 ∧ id = TaskId.feed u) ∧
      st1.completed = st.completed ∧
      (∀ u, u ∈ fs → u ∈ fs1) := by
  intro items
  induction items with
  | nil =>
    intro st fs res st1 fs1 hrun
    simp only [Multi.seedLoop, Prod.mk.injEq] at hrun
    obtain ⟨-, rfl, rfl⟩ := hrun
    exact ⟨fun id h => Or.inl h, rfl, fun u h => h⟩
  | cons item rest ih =>
    intro st fs res st1 fs1 hrun
    rcases hlnk : item.link with _ | url
    · simp only [Multi.seedLoop, hlnk, Prod.mk.injEq] at hrun
      obtain ⟨-, rfl, rfl⟩ := hrun
      exact ⟨fun id h => Or.inl h, rfl, fun u h => h⟩
    · rcases htl : item.title with _ | tt
      · simp only [Multi.seedLoop, hlnk, htl, Prod.mk.injEq] at hrun
        obtain ⟨-, rfl, rfl⟩ := hrun
        exact ⟨fun id h => Or.inl h, rfl, fun u h => h⟩
      · cases hc : st.urls.contains url with
        | true =>
          simp only [Multi.seedLoop, hlnk, htl, hc, if_true] at hrun
          exact ih st fs res st1 fs1 hrun
        | false =>
          simp only [Multi.seedLoop, hlnk, htl, hc, Bool.false_eq_true, if_false] at hrun
          obtain ⟨p1, p2, p3⟩ := ih _ _ res st1 fs1 hrun
          refine ⟨?_, p2, ?_⟩
          · intro id hid
            rcases p1 id hid with hin | hex2
            · rcases List.mem_append.mp hin with hin1 | hin1
              · exact Or.inl hin1
              · refine Or.inr ⟨url, p3 _ (List.mem_append_right _ (by simp)), by simpa using hin1⟩
            · exact Or.inr hex2
          · intro u hu
            exact p3 u (List.mem_append_left _ hu)

theorem Pooled.drainArticles_ok (env : Env) :
    ∀ (aq : List Pooled.AJob) (st st1 : RunState),
      Pooled.drainArticles env aq st = (.ok (), st1) →
      (∀ j, j ∈ aq → TaskId.art j.url ∈ st1.completed) ∧
      (∀ id, id ∈ st.completed → id ∈ st1.completed) ∧
      st1.spawned = st.spawned := by
  intro aq
  induction aq with
  | nil =>
    intro st st1 hrun
    simp only [Pooled.drainArticles, Prod.mk.injEq] at hrun
    obtain ⟨-, rfl⟩ := hrun
    exact ⟨fun j hj => absurd hj (List.not_mem_nil j), fun id h => h, rfl⟩
  | cons j rest ih =>
    intro st st1 hrun
    rcases hex : env.extract j.url j.title with e | ws
    · rw [show Pooled.drainArticles env (j :: rest) st = (.panicked, st) by
        simp [Pooled.drainArticles, Pooled.articleJob, hex]] at hrun
      exact absurd (congrArg Prod.fst hrun) (by simp)
    · rw [show Pooled.drainArticles env (j :: rest) st =
          Pooled.drainArticles env rest { st with
            index := st.index ++ [(j.site, j.title, j.url, ws)],
            completed := st.completed ++ [TaskId.art j.url] } by
        simp [Pooled.drainArticles, Pooled.articleJob, hex]] at hrun
      obtain ⟨ihmem, ihmono, ihsp⟩ := ih _ _ hrun
      refine ⟨?_, ?_, ihsp⟩
      · intro j2 hj2
        rcases List.mem_cons.mp hj2 with rfl | hmem2
        · exact ihmono (TaskId.art j2.url) (List.mem_append_right _ (by simp))
        · exact ihmem j2 hmem2
      · intro id hid
        exact ihmono id (List.mem_append_left _ hid)

theorem Pooled.feedJobLoop_spawned (env : Env) (fu : String) :
    ∀ (items : List Item) (st : RunState) (aq : List Pooled.AJob)
      (res : Option RssIndexError) (st1 : RunState) (aq1 : List Pooled.AJob),
      Pooled.feedJobLoop env fu items st aq = (res, st1, aq1) →
      (∀ id, id ∈ st1.spawned →
        id ∈ st.spawned ∨ ∃ j, j ∈ aq1 ∧ id = TaskId.art j.url) ∧
      st1.completed = st.completed ∧
      (∀ j, j ∈ aq → j ∈ aq1) := by
  rcases hho : env.host fu with e | hOpt
  · intro items st aq res st1 aq1 hrun
    cases items with
    | nil =>
      simp only [Pooled.feedJobLoop, Prod.mk.injEq] at hrun
      obtain ⟨-, rfl, rfl⟩ := hrun
      exact ⟨fun id h => Or.inl h, rfl, fun j h => h⟩
    | cons item rest =>
      simp only [Pooled.feedJobLoop, hho, Prod.mk.injEq] at hrun
      obtain ⟨-, rfl, rfl⟩ := hrun
      exact ⟨fun id h => Or.inl h, rfl, fun j h => h⟩
  · intro items
    induction items with
    | nil =>
      intro st aq res st1 aq1 hrun
      simp only [Pooled.feedJobLoop, Prod.mk.injEq] at hrun
      obtain ⟨-, rfl, rfl⟩ := hrun
      exact ⟨fun id h => Or.inl h, rfl, fun j h => h⟩
    | cons item rest ih =>
      intro st aq res st1 aq1 hrun
      rcases hlnk : item.link with _ | u
      · simp only [Pooled.feedJobLoop, hho, hlnk] at hrun
        exact ih st aq res st1 aq1 hrun
      · rcases hopt : hOpt with _ | s
        · subst hopt
          simp only [Pooled.feedJobLoop, hho, hlnk] at hrun
          exact ih st aq res st1 aq1 hrun
        · subst hopt
          rcases htl : item.title with _ | t
          · simp only [Pooled.feedJobLoop, hho, hlnk, htl] at hrun
            exact ih st aq res st1 aq1 hrun
          · cases hc : st.urls.contains u with
            | true =>
              simp only [Pooled.feedJobLoop, hho, hlnk, htl, hc, if_true] at hrun
              exact ih st aq res st1 aq1 hrun
            | false =>
              simp only [Pooled.feedJobLoop, hho, hlnk, htl, hc,
                Bool.false_eq_true, if_false] at hrun
              obtain ⟨p1, p2, p3⟩ := ih _ _ res st1 aq1 hrun
              refine ⟨?_, p2, ?_⟩
              · intro id hid
                rcases p1 id hid with hin | hex2
                · rcases List.mem_append.mp hin with hin1 | hin1
                  · exact Or.inl hin1
                  · refine Or.inr ⟨⟨s, t, u⟩, ?_, ?_⟩
                    · exact p3 _ (List.mem_append_right _ (by simp))
                    · simpa using hin1
                · exact Or.inr hex2
              · intro j hj
                exact p3 j (List.mem_append_left _ hj)

theorem Pooled.processFeedJobs_ok (env : Env) (u : String) (st : RunState)
    (aq : List Pooled.AJob) (st1 : RunState) (aq1 : List Pooled.AJob)
    (hrun : Pooled.processFeed env u st aq = (.ok (), st1, aq1)) :
    (∀ id, id ∈ st1.spawned →
      id ∈ st.spawned ∨ ∃ j, j ∈ aq1 ∧ id = TaskId.art j.url) ∧
    st1.completed = st.completed ∧
    (∀ j, j ∈ aq → j ∈ aq1) := by
  rcases hfp : env.fetchParse u with e | items
  · rw [show Pooled.processFeed env u st aq = (.err e, st, aq) by
      simp [Pooled.processFeed, hfp]] at hrun
    exact absurd (congrArg Prod.fst hrun) (by simp)
  · rcases hfl : Pooled.feedJobLoop env u items st aq with ⟨res, st2, aq2⟩
    rcases res with _ | e
    · rw [show Pooled.processFeed env u st aq = (.ok (), st2, aq2) by
        simp [Pooled.processFeed, hfp, hfl]] at hrun
      have h2 : st2 = st1 ∧ aq2 = aq1 := by
        have := congrArg Prod.snd hrun
        simpa using this
      obtain ⟨rfl, rfl⟩ := h2
      exact Pooled.feedJobLoop_spawned env u items st aq none st2 aq2 hfl
    · rw [show Pooled.processFeed env u st aq = (.err e, st2, aq2) by
        simp [Pooled.processFeed, hfp, hfl]] at hrun
      exact absurd (congrArg Prod.fst hrun) (by simp)

theorem Pooled.feedJob_ok (env : Env) (u : String) (st : RunState)
    (aq : List Pooled.AJob) (st1 : RunState) (aq1 : List Pooled.AJob)
    (hrun : Pooled.feedJob env u st aq = (.ok (), st1, aq1)) :
    (∀ id, id ∈ st1.spawned →
      id ∈ st.spawned ∨ ∃ j, j ∈ aq1 ∧ id = TaskId.art j.url) ∧
    TaskId.feed u ∈ st1.completed ∧
    (∀ id, id ∈ st.completed → id ∈ st1.completed) ∧
    (∀ j, j ∈ aq → j ∈ aq1) := by
  rcases hpf : Pooled.processFeed env u st aq with ⟨o, st2, aq2⟩
  rcases o with ⟨⟨⟩⟩ | e | -
  · rw [show Pooled.feedJob env u st aq = (.ok (),
        { st2 with completed := st2.completed ++ [TaskId.feed u] }, aq2) by
      simp [Pooled.feedJob, hpf]] at hrun
    have h2 : ({ st2 with completed := st2.completed ++ [TaskId.feed u] } : RunState) = st1 ∧
        aq2 = aq1 := by
      have := congrArg Prod.snd hrun
      simpa using this
    obtain ⟨rfl, rfl⟩ := h2
    obtain ⟨p1, p2, p3⟩ := Pooled.processFeedJobs_ok env u st aq st2 aq2 hpf
    refine ⟨p1, List.mem_append_right _ (by simp), ?_, p3⟩
    · intro id hid
      show id ∈ st2.completed ++ [TaskId.feed u]
      rw [p2]
      exact List.mem_append_left _ hid
  · rw [show Pooled.feedJob env u st aq = (.panicked, st2, aq2) by
      simp [Pooled.feedJob, hpf]] at hrun
    exact absurd (congrArg Prod.fst hrun) (by simp)
  · rw [show Pooled.feedJob env u st aq = (.panicked, st2, aq2) by
      simp [Pooled.feedJob, hpf]] at hrun
    exact absurd (congrArg Prod.fst hrun) (by simp)

theorem Pooled.feedJob_outcome (env : Env) (u : String) (st : RunState)
    (aq : List Pooled.AJob) :
    (Pooled.feedJob env u st aq).1 = .ok () ∨ (Pooled.feedJob env u st aq).1 = .panicked := by
  rcases hpf : Pooled.processFeed env u st aq with ⟨o, st1, aq1⟩
  rcases o with ⟨⟨⟩⟩ | e | -
  · exact Or.inl (by simp [Pooled.feedJob, hpf])
  · exact Or.inr (by simp [Pooled.feedJob, hpf])
  · exact Or.inr (by simp [Pooled.feedJob, hpf])

theorem Pooled.drainFeeds_ok (env : Env) :
    ∀ (fs : List String) (st : RunState) (aq : List Pooled.AJob)
      (st1 : RunState) (aq1 : List Pooled.AJob),
      Pooled.drainFeeds env fs st aq = (.ok (), st1, aq1) →
      (∀ id, id ∈ st1.spawned →
        id ∈ st.spawned ∨ ∃ j, j ∈ aq1 ∧ id = TaskId.art j.url) ∧
      (∀ u, u ∈ fs → TaskId.feed u ∈ st1.completed) ∧
      (∀ id, id ∈ st.completed → id ∈ st1.completed) ∧
      (∀ j, j ∈ aq → j ∈ aq1) := by
  intro fs
  induction fs with
  | nil =>
    intro st aq st1 aq1 hrun
    simp only [Pooled.drainFeeds, Prod.mk.injEq] at hrun
    obtain ⟨-, rfl, rfl⟩ := hrun
    exact ⟨fun id h => Or.inl h, fun u hu => absurd hu (List.not_mem_nil u),
      fun id h => h, fun j h => h⟩
  | cons u rest ih =>
    intro st aq st1 aq1 hrun
    rcases hfj : Pooled.feedJob env u st aq with ⟨o, st2, aq2⟩
    rcases o with ⟨⟨⟩⟩ | e | -
    · rw [show Pooled.drainFeeds env (u :: rest) st aq =
          Pooled.drainFeeds env rest st2 aq2 by
        simp [Pooled.drainFeeds, hfj]] at hrun
      obtain ⟨q1, q2, q3, q4⟩ := ih st2 aq2 st1 aq1 hrun
      obtain ⟨p1, p2, p3, p4⟩ := Pooled.feedJob_ok env u st aq st2 aq2 hfj
      refine ⟨?_, ?_, ?_, ?_⟩
      · intro id hid
        rcases q1 id hid with hin | hex2
        · rcases p1 id hin with hin2 | ⟨j, hj, rfl⟩
          · exact Or.inl hin2
          · exact Or.inr ⟨j, q4 j hj, rfl⟩
        · exact Or.inr hex2
      · intro v hv
        rcases List.mem_cons.mp hv with rfl | hv2
        · exact q3 _ p2
        · exact q2 v hv2
      · intro id hid
        exact q3 id (p3 id hid)
      · intro j hj
        exact q4 j (p4 j hj)
    · rw [show Pooled.drainFeeds env (u :: rest) st aq = (.err e, st2, aq2) by
        simp [Pooled.drainFeeds, hfj]] at hrun
      exact absurd (congrArg Prod.fst hrun) (by simp)
    · rw [show Pooled.drainFeeds env (u :: rest) st aq = (.panicked, st2, aq2) by
        simp [Pooled.drainFeeds, hfj]] at hrun
      exact absurd (congrArg Prod.fst hrun) (by simp)

theorem Pooled.drainFeeds_outcome (env : Env) :
    ∀ (fs : List String) (st : RunState) (aq : List Pooled.AJob),
      (Pooled.drainFeeds env fs st aq).1 = .ok () ∨
      (Pooled.drainFeeds env fs st aq).1 = .panicked := by
  intro fs
  induction fs with
  | nil => intro st aq; exact Or.inl (by simp [Pooled.drainFeeds])
  | cons u rest ih =>
    intro st aq
    rcases hfj : Pooled.feedJob env u st aq with ⟨o, st2, aq2⟩
    have ho := Pooled.feedJob_outcome env u st aq
    rw [hfj] at ho
    simp only at ho
    rcases ho with rfl | rfl
    · rw [show Pooled.drainFeeds env (u :: rest) st aq =
          Pooled.drainFeeds env rest st2 aq2 by simp [Pooled.drainFeeds, hfj]]
      exact ih st2 aq2
    · exact Or.inr (by simp [Pooled.drainFeeds, hfj])

theorem Pooled.drainArticles_outcome (env : Env) :
    ∀ (aq : List Pooled.AJob) (st : RunState),
      (Pooled.drainArticles env aq st).1 = .ok () ∨
      (Pooled.drainArticles env aq st).1 = .panicked := by
  intro aq
  induction aq with
  | nil => intro st; exact Or.inl (by simp [Pooled.drainArticles])
  | cons j rest ih =>
    intro st
    rcases hex : env.extract j.url j.title with e | ws
    · exact Or.inr (by simp [Pooled.drainArticles, Pooled.articleJob, hex])
    · rw [show Pooled.drainArticles env (j :: rest) st =
          Pooled.drainArticles env rest { st with
            index := st.index ++ [(j.site, j.title, j.url, ws)],
            completed := st.completed ++ [TaskId.art j.url] } by
        simp [Pooled.drainArticles, Pooled.articleJob, hex]]
      exact ih _

theorem Pooled.finish_done (env : Env) (res : Option RssIndexError) (fs : List String)
    (st : RunState) (o : Outcome Unit) (st2 : RunState)
    (hrun : Pooled.finish env res fs st = (o, st2)) (hnp : o ≠ .panicked) :
    (∀ id, id ∈ st2.spawned → id ∈ st.spawned ∨ id ∈ st2.completed) ∧
    (∀ u, u ∈ fs → TaskId.feed u ∈ st2.completed) ∧
    (∀ id, id ∈ st.completed → id ∈ st2.completed) := by
  rcases hdf : Pooled.drainFeeds env fs st [] with ⟨o1, st1, aq⟩
  have ho1 := Pooled.drainFeeds_outcome env fs st []
  rw [hdf] at ho1
  simp only at ho1
  rcases ho1 with rfl | rfl
  · rcases hda : Pooled.drainArticles env aq st1 with ⟨o2, st3⟩
    have ho2 := Pooled.drainArticles_outcome env aq st1
    rw [hda] at ho2
    simp only at ho2
    rcases ho2 with rfl | rfl
    · have hst : st3 = st2 := by
        rcases res with _ | e
        · rw [show Pooled.finish env none fs st = (.ok (), st3) by
            simp [Pooled.finish, hdf, hda]] at hrun
          exact congrArg Prod.snd hrun
        · rw [show Pooled.finish env (some e) fs st = (.err e, st3) by
            simp [Pooled.finish, hdf, hda]] at hrun
          exact congrArg Prod.snd hrun
      subst hst
      obtain ⟨f1, f2, f3, -⟩ := Pooled.drainFeeds_ok env fs st [] st1 aq hdf
      obtain ⟨a1, a2, a3⟩ := Pooled.drainArticles_ok env aq st1 _ hda
      refine ⟨?_, ?_, ?_⟩
      · intro id hid
        rw [a3] at hid
        rcases f1 id hid with hin | ⟨j, hj, rfl⟩
        · exact Or.inl hin
        · exact Or.inr (a1 j hj)
      · intro u hu
        exact a2 _ (f2 u hu)
      · intro id hid
        exact a2 id (f3 id hid)
    · rw [show Pooled.finish env res fs st = (.panicked, st3) by
        simp [Pooled.finish, hdf, hda]] at hrun
      have : o = .panicked := (congrArg Prod.fst hrun).symm
      exact absurd this hnp
  · rw [show Pooled.finish env res fs st = (.panicked, st1) by
      simp [Pooled.finish, hdf]] at hrun
    have : o = .panicked := (congrArg Prod.fst hrun).symm
    exact absurd this hnp

/-- C5 counterexample: in the gate strategy, when a later seed entry is
missing its link, the `?` at multi.rs:57 returns the error immediately
and the already-spawned feed thread is dropped (detached), NOT joined:
`process_feed_file` returns with the task spawned but not completed. -/
theorem c5_counterexample :
    (Multi.processFeedFile envBadSecondSeed).1 = .err .urlError ∧
    TaskId.feed "fa" ∈ (Multi.processFeedFile envBadSecondSeed).2.spawned ∧
    TaskId.feed "fa" ∉ (Multi.processFeedFile envBadSecondSeed).2.completed := by
  exact ⟨by decide, by decide, by decide⟩

/-- C5 amended: in the gate strategy, on a SUCCESSFUL return every
transitively spawned feed and article task has completed (all handles
joined) — but on the error return for a malformed seed entry the
already-spawned tasks are left unjoined (see the counterexample), and
`process_feed` likewise skips its article joins when `Url::parse`
fails.  In the pool strategy, any non-panicking return happens only
after both queues have drained (the pools' destructors run even on the
early-error return), so every submitted task has completed. -/
theorem c5_amended :
    (∀ (env : Env) (st : RunState),
      Multi.processFeedFile env = (.ok (), st) →
      ∀ id, id ∈ st.spawned → id ∈ st.completed) ∧
    (∀ (env : Env) (o : Outcome Unit) (st : RunState),
      Pooled.processFeedFile env = (o, st) → o ≠ .panicked →
      ∀ id, id ∈ st.spawned → id ∈ st.completed) := by
  constructor
  · intro env st hrun id hid
    rcases hseed : env.seed with e | items
    · rw [show Multi.processFeedFile env = (.err e, initState) by
        simp [Multi.processFeedFile, hseed]] at hrun
      exact absurd (congrArg Prod.fst hrun) (by simp)
    · rcases hsl : Multi.seedLoop items initState [] with ⟨res, st2, fs⟩
      rcases res with _ | e
      · rw [show Multi.processFeedFile env = Multi.joinFeeds env fs st2 by
          simp [Multi.processFeedFile, hseed, hsl]] at hrun
        obtain ⟨q1, q2, -⟩ := Multi.joinFeeds_ok env fs st2 st hrun
        rcases q1 id hid with hin | hin
        · obtain ⟨p1, -, -⟩ := Multi.seedLoop_spawned items initState [] none st2 fs hsl
          rcases p1 id hin with habs | ⟨u, hu, rfl⟩
          · exact absurd habs (List.not_mem_nil id)
          · exact q2 u hu
        · exact hin
      · rw [show Multi.processFeedFile env = (.err e, st2) by
          simp [Multi.processFeedFile, hseed, hsl]] at hrun
        exact absurd (congrArg Prod.fst hrun) (by simp)
  · intro env o st hrun hnp id hid
    rcases hseed : env.seed with e | items
    · rw [show Pooled.processFeedFile env = (.err e, initState) by
        simp [Pooled.processFeedFile, hseed]] at hrun
      have hst : initState = st := congrArg Prod.snd hrun
      rw [← hst] at hid
      exact absurd hid (List.not_mem_nil id)
    · rcases hsl : Multi.seedLoop items initState [] with ⟨res, st2, fs⟩
      rw [show Pooled.processFeedFile env = Pooled.finish env res fs st2 by
        simp [Pooled.processFeedFile, hseed, hsl]] at hrun
      obtain ⟨f1, f2, -⟩ := Pooled.finish_done env res fs st2 o st hrun hnp
      rcases f1 id hid with hin | hin
      · obtain ⟨p1, -, -⟩ := Multi.seedLoop_spawned items initState [] res st2 fs hsl
        rcases p1 id hin with habs | ⟨u, hu, rfl⟩
        · exact absurd habs (List.not_mem_nil id)
        · exact f2 u hu
      · exact hin

/-- Witness for C5's amended theorem: a fully successful run in each
strategy, at the spawned feed task's id. -/
theorem c5_amended_witness :
    TaskId.feed "fa" ∈ (Multi.processFeedFile envSharedSetB).2.completed ∧
    TaskId.feed "fa" ∈ (Pooled.processFeedFile envSharedSetB).2.completed := by
  constructor
  · exact c5_amended.1 envSharedSetB (Multi.processFeedFile envSharedSetB).2
      (by decide) (TaskId.feed "fa") (by decide)
  · exact c5_amended.2 envSharedSetB (Pooled.processFeedFile envSharedSetB).1
      (Pooled.processFeedFile envSharedSetB).2 rfl (by decide) (TaskId.feed "fa") (by decide)

theorem Multi.feedLoop_logs (env : Env) (fu : String) :
    ∀ (items : List Item) (st : RunState) (hs : List AHandle)
      (res : Option RssIndexError) (st1 : RunState) (hs1 : List AHandle),
      Multi.feedLoop env fu items st hs = (res, st1, hs1) →
      (∀ h, h ∈ hs → h.evs = Multi.articleDispatchEvs) →
      st1.logs = st.logs ∧ (∀ h, h ∈ hs1 → h.evs = Multi.articleDispatchEvs) := by
  rcases hho : env.host fu with e | hOpt
  · intro items st hs res st1 hs1 hrun hevs
    cases items with
    | nil =>
      simp only [Multi.feedLoop, Prod.mk.injEq] at hrun
      obtain ⟨-, rfl, rfl⟩ := hrun
      exact ⟨rfl, hevs⟩
    | cons item rest =>
      simp only [Multi.feedLoop, hho, Prod.mk.injEq] at hrun
      obtain ⟨-, rfl, rfl⟩ := hrun
      exact ⟨rfl, hevs⟩
  · intro items
    induction items with
    | nil =>
      intro st hs res st1 hs1 hrun hevs
      simp only [Multi.feedLoop, Prod.mk.injEq] at hrun
      obtain ⟨-, rfl, rfl⟩ := hrun
      exact ⟨rfl, hevs⟩
    | cons item rest ih =>
      intro st hs res st1 hs1 hrun hevs
      rcases hlnk : item.link with _ | u
      · simp only [Multi.feedLoop, hho, hlnk] at hrun
        exact ih st hs res st1 hs1 hrun hevs
      · rcases hopt : hOpt with _ | s
        · subst hopt
          simp only [Multi.feedLoop, hho, hlnk] at hrun
          exact ih st hs res st1 hs1 hrun hevs
        · subst hopt
          rcases htl : item.title with _ | t
          · simp only [Multi.feedLoop, hho, hlnk, htl] at hrun
            exact ih st hs res st1 hs1 hrun hevs
          · cases hc : st.urls.contains u with
            | true =>
              simp only [Multi.feedLoop, hho, hlnk, htl, hc, if_true] at hrun
              exact ih st hs res st1 hs1 hrun hevs
            | false =>
              simp only [Multi.feedLoop, hho, hlnk, htl, hc,
                Bool.false_eq_true, if_false] at hrun
              have hevs2 : ∀ h, h ∈ hs ++ [(⟨s, t, u, Multi.articleDispatchEvs⟩ : AHandle)] →
                  h.evs = Multi.articleDispatchEvs := by
                intro h hmem
                rcases List.mem_append.mp hmem with hm | hm
                · exact hevs h hm
                · rw [List.mem_singleton.mp hm]
              have h9 := ih _ _ res st1 hs1 hrun hevs2
              exact h9

theorem Multi.joinArticles_logs (env : Env) :
    ∀ (hs : List AHandle) (st : RunState) (o : Outcome Unit) (st1 : RunState),
      Multi.joinArticles env hs st = (o, st1) →
      (∀ h, h ∈ hs → h.evs = Multi.articleDispatchEvs) →
      (∀ p, p ∈ st.logs → Multi.LogOk p) →
      ∀ p, p ∈ st1.logs → Multi.LogOk p := by
  intro hs
  induction hs with
  | nil =>
    intro st o st1 hrun _ hlogs
    simp only [Multi.joinArticles, Prod.mk.injEq] at hrun
    obtain ⟨-, rfl⟩ := hrun
    exact hlogs
  | cons h rest ih =>
    intro st o st1 hrun hevs hlogs
    have hev : h.evs = Multi.articleDispatchEvs := hevs h (List.mem_cons_self h rest)
    rcases hex : env.extract h.url h.title with e | ws
    · rw [show Multi.joinArticles env (h :: rest) st =
          (.panicked, { st with logs := st.logs ++ [(.art h.url, h.evs ++ [.work])] }) by
        simp [Multi.joinArticles, Multi.articleTask, hex]] at hrun
      obtain ⟨-, rfl⟩ : Outcome.panicked = o ∧
          ({ st with logs := st.logs ++ [(.art h.url, h.evs ++ [.work])] } : RunState) = st1 := by
        exact ⟨congrArg Prod.fst hrun, congrArg Prod.snd hrun⟩
      intro p hp
      rcases List.mem_append.mp hp with hm | hm
      · exact hlogs p hm
      · rw [List.mem_singleton.mp hm]
        exact Or.inr (by rw [hev]; rfl)
    · rw [show Multi.joinArticles env (h :: rest) st =
          Multi.joinArticles env rest { st with
            index := st.index ++ [(h.site, h.title, h.url, ws)],
            completed := st.completed ++ [TaskId.art h.url],
            logs := st.logs ++ [(.art h.url, h.evs ++ [.work, .relTotal, .relScoped])] } by
        simp [Multi.joinArticles, Multi.articleTask, hex]] at hrun
      refine ih _ o st1 hrun (fun h2 hm => hevs h2 (List.mem_cons_of_mem h hm)) ?_
      intro p hp
      rcases List.mem_append.mp hp with hm | hm
      · exact hlogs p hm
      · rw [List.mem_singleton.mp hm]
        exact Or.inl (by rw [hev]; rfl)

theorem Multi.processFeed_logs (env : Env) (u : String) (st : RunState)
    (o : Outcome Unit) (st1 : RunState)
    (hrun : Multi.processFeed env u st = (o, st1))
    (hlogs : ∀ p, p ∈ st.logs → Multi.LogOk p) :
    ∀ p, p ∈ st1.logs → Multi.LogOk p := by
  rcases hfp : env.fetchParse u with e | items
  · rw [show Multi.processFeed env u st = (.err e, st) by
      simp [Multi.processFeed, hfp]] at hrun
    have : st = st1 := congrArg Prod.snd hrun
    rw [← this]
    exact hlogs
  · rcases hfl : Multi.feedLoop env u items st [] with ⟨res, st2, hs⟩
    obtain ⟨hleq, hevs⟩ := Multi.feedLoop_logs env u items st [] res st2 hs hfl
      (fun h hm => absurd hm (List.not_mem_nil h))
    have hlogs2 : ∀ p, p ∈ st2.logs → Multi.LogOk p := by
      rw [hleq]; exact hlogs
    rcases res with _ | e
    · rw [show Multi.processFeed env u st = Multi.joinArticles env hs st2 by
        simp [Multi.processFeed, hfp, hfl]] at hrun
      exact Multi.joinArticles_logs env hs st2 o st1 hrun hevs hlogs2
    · rw [show Multi.processFeed env u st = (.err e, st2) by
        simp [Multi.processFeed, hfp, hfl]] at hrun
      have : st2 = st1 := congrArg Prod.snd hrun
      rw [← this]
      exact hlogs2

theorem Multi.feedTask_logs (env : Env) (u : String) (st : RunState)
    (o : Outcome Unit) (st1 : RunState)
    (hrun : Multi.feedTask env u st = (o, st1))
    (hlogs : ∀ p, p ∈ st.logs → Multi.LogOk p) :
    ∀ p, p ∈ st1.logs → Multi.LogOk p := by
  rcases hpf : Multi.processFeed env u st with ⟨o2, st2⟩
  have hlogs2 := Multi.processFeed_logs env u st o2 st2 hpf hlogs
  rcases o2 with ⟨⟨⟩⟩ | e | -
  · rw [show Multi.feedTask env u st = (.ok (), { st2 with
        completed := st2.completed ++ [TaskId.feed u],
        logs := st2.logs ++
          [(.feed u, Multi.feedDispatchEvs ++ [.work, .relTotal, .relScoped])] }) by
      simp [Multi.feedTask, hpf]] at hrun
    have hst : ({ st2 with
        completed := st2.completed ++ [TaskId.feed u],
        logs := st2.logs ++
          [(.feed u, Multi.feedDispatchEvs ++ [.work, .relTotal, .relScoped])] } : RunState)
        = st1 := congrArg Prod.snd hrun
    rw [← hst]
    intro p hp
    rcases List.mem_append.mp hp with hm | hm
    · exact hlogs2 p hm
    · rw [List.mem_singleton.mp hm]
      exact Or.inl rfl
  · rw [show Multi.feedTask env u st = (.panicked, { st2 with
        logs := st2.logs ++ [(.feed u, Multi.feedDispatchEvs ++ [.work])] }) by
      simp [Multi.feedTask, hpf]] at hrun
    have hst : ({ st2 with
        logs := st2.logs ++ [(.feed u, Multi.feedDispatchEvs ++ [.work])] } : RunState)
        = st1 := congrArg Prod.snd hrun
    rw [← hst]
    intro p hp
    rcases List.mem_append.mp hp with hm | hm
    · exact hlogs2 p hm
    · rw [List.mem_singleton.mp hm]
      exact Or.inr rfl
  · rw [show Multi.feedTask env u st = (.panicked, { st2 with
        logs := st2.logs ++ [(.feed u, Multi.feedDispatchEvs ++ [.work])] }) by
      simp [Multi.feedTask, hpf]] at hrun
    have hst : ({ st2 with
        logs := st2.logs ++ [(.feed u, Multi.feedDispatchEvs ++ [.work])] } : RunState)
        = st1 := congrArg Prod.snd hrun
    rw [← hst]
    intro p hp
    rcases List.mem_append.mp hp with hm | hm
    · exact hlogs2 p hm
    · rw [List.mem_singleton.mp hm]
      exact Or.inr rfl

theorem Multi.joinFeeds_logs (env : Env) :
    ∀ (fs : List String) (st : RunState) (o : Outcome Unit) (st1 : RunState),
      Multi.joinFeeds env fs st = (o, st1) →
      (∀ p, p ∈ st.logs → Multi.LogOk p) →
      ∀ p, p ∈ st1.logs → Multi.LogOk p := by
  intro fs
  induction fs with
  | nil =>
    intro st o st1 hrun hlogs
    simp only [Multi.joinFeeds, Prod.mk.injEq] at hrun
    obtain ⟨-, rfl⟩ := hrun
    exact hlogs
  | cons u rest ih =>
    intro st o st1 hrun hlogs
    rcases hft : Multi.feedTask env u st with ⟨o2, st2⟩
    have hlogs2 := Multi.feedTask_logs env u st o2 st2 hft hlogs
    rcases o2 with ⟨⟨⟩⟩ | e | -
    · rw [show Multi.joinFeeds env (u :: rest) st = Multi.joinFeeds env rest st2 by
        simp [Multi.joinFeeds, hft]] at hrun
      exact ih st2 o st1 hrun hlogs2
    · rw [show Multi.joinFeeds env (u :: rest) st = (.err e, st2) by
        simp [Multi.joinFeeds, hft]] at hrun
      have : st2 = st1 := congrArg Prod.snd hrun
      rw [← this]
      exact hlogs2
    · rw [show Multi.joinFeeds env (u :: rest) st = (.panicked, st2) by
        simp [Multi.joinFeeds, hft]] at hrun
      have : st2 = st1 := congrArg Prod.snd hrun
      rw [← this]
      exact hlogs2

theorem Multi.seedLoop_logs :
    ∀ (items : List Item) (st : RunState) (fs : List String)
      (res : Option RssIndexError) (st1 : RunState) (fs1 : List String),
      Multi.seedLoop items st fs = (res, st1, fs1) → st1.logs = st.logs := by
  intro items
  induction items with
  | nil =>
    intro st fs res st1 fs1 hrun
    simp only [Multi.seedLoop, Prod.mk.injEq] at hrun
    obtain ⟨-, rfl, rfl⟩ := hrun
    rfl
  | cons item rest ih =>
    intro st fs res st1 fs1 hrun
    rcases hlnk : item.link with _ | url
    · simp only [Multi.seedLoop, hlnk, Prod.mk.injEq] at hrun
      obtain ⟨-, rfl, rfl⟩ := hrun
      rfl
    · rcases htl : item.title with _ | tt
      · simp only [Multi.seedLoop, hlnk, htl, Prod.mk.injEq] at hrun
        obtain ⟨-, rfl, rfl⟩ := hrun
        rfl
      · cases hc : st.urls.contains url with
        | true =>
          simp only [Multi.seedLoop, hlnk, htl, hc, if_true] at hrun
          exact ih st fs res st1 fs1 hrun
        | false =>
          simp only [Multi.seedLoop, hlnk, htl, hc, Bool.false_eq_true, if_false] at hrun
          have h9 := ih _ _ res st1 fs1 hrun
          exact h9

theorem Multi.run_logs_ok (env : Env) :
    ∀ p, p ∈ (Multi.processFeedFile env).2.logs → Multi.LogOk p := by
  rcases hseed : env.seed with e | items
  · rw [show Multi.processFeedFile env = (.err e, initState) by
      simp [Multi.processFeedFile, hseed]]
    exact fun p hp => absurd hp (List.not_mem_nil p)
  · rcases hsl : Multi.seedLoop items initState [] with ⟨res, st2, fs⟩
    have hl2 : st2.logs = [] := Multi.seedLoop_logs items initState [] res st2 fs hsl
    have hlogs2 : ∀ p, p ∈ st2.logs → Multi.LogOk p := by
      rw [hl2]
      exact fun p hp => absurd hp (List.not_mem_nil p)
    rcases res with _ | e
    · rw [show Multi.processFeedFile env = Multi.joinFeeds env fs st2 by
        simp [Multi.processFeedFile, hseed, hsl]]
      rcases hjf : Multi.joinFeeds env fs st2 with ⟨o, st⟩
      exact Multi.joinFeeds_logs env fs st2 o st hjf hlogs2
    · rw [show Multi.processFeedFile env = (.err e, st2) by
        simp [Multi.processFeedFile, hseed, hsl]]
      exact hlogs2

/-- C9: for every task whose lifecycle the gate-strategy run records —
feed-level and article-level alike — the total slot is acquired before
the scoped slot (`acqOrderOk`: no scoped acquisition without a prior
total acquisition), and at the task's body both the total slot and the
scoped slot are held simultaneously (`workHeldBoth`). -/
theorem c9_acquisition_order (env : Env) (p : TaskId × List GOp)
    (hp : p ∈ (Multi.processFeedFile env).2.logs) :
    Multi.acqOrderOk p.2 false = true ∧ Multi.workHeldBoth p.2 0 0 = true := by
  rcases Multi.run_logs_ok env p hp with h | h <;> rw [h] <;> exact ⟨by decide, by decide⟩

/-- Witness for C9 at a successful concrete run. -/
theorem c9_acquisition_order_witness :
    Multi.acqOrderOk [GOp.acqTotal, GOp.acqScoped, GOp.work, GOp.relTotal, GOp.relScoped]
        false = true ∧
    Multi.workHeldBoth [GOp.acqTotal, GOp.acqScoped, GOp.work, GOp.relTotal, GOp.relScoped]
        0 0 = true :=
  c9_acquisition_order envSharedSetB
    (TaskId.art "a1", [GOp.acqTotal, GOp.acqScoped, GOp.work, GOp.relTotal, GOp.relScoped])
    (by decide)

theorem Threadpool.reach_inv (jobs : List Nat) (k : Nat) :
    ∀ (m s : Nat), Threadpool.Reach jobs k m s →
      m ≤ jobs.length + k ∧ s = m - jobs.length := by
  intro m s h
  induction h with
  | init => simp
  | step m s msg h hw hm ih =>
    obtain ⟨ihm, ihs⟩ := ih
    have hlen : (Threadpool.msgs jobs k).length = jobs.length + k := by
      simp [Threadpool.msgs]
    have hmlt : m < jobs.length + k := by
      by_contra hge
      have hnone : (Threadpool.msgs jobs k).get? m = none :=
        List.get?_eq_none.mpr (by rw [hlen]; omega)
      rw [hnone] at hm
      cases hm
    refine ⟨by omega, ?_⟩
    by_cases hmL : m < jobs.length
    · have happ : (Threadpool.msgs jobs k).get? m = (jobs.map some).get? m :=
        List.get?_append (by simpa using hmL)
    
      rcases ho : jobs.get? m with _ | j
      · exact absurd (List.get?_eq_none.mp ho) (by omega)
      · have hmsg : msg = some j := by
          rw [happ, List.get?_map, ho] at hm
          simpa using hm.symm
        subst hmsg
        simp only [Option.isNone_some, Bool.false_eq_true, if_false]
        omega
    · have hLm : jobs.length ≤ m := by omega
      have happ : (Threadpool.msgs jobs k).get? m =
          (List.replicate k (none : Option Nat)).get? (m - (jobs.map some).length) :=
        List.get?_append_right (by simpa using hLm)
      have hrep : (List.replicate k (none : Option Nat)).get? (m - (jobs.map some).length) =
          some none := by
        rw [List.get?_eq_getElem?, List.getElem?_replicate, if_pos (by simp; omega)]
      have hmsg : msg = none := by
        rw [happ, hrep] at hm
        simpa using hm.symm
      subst hmsg
      simp only [Option.isNone_none, if_true]
      omega

theorem Threadpool.executed_full (jobs : List Nat) (k : Nat) :
    Threadpool.executed jobs k (jobs.length + k) = jobs := by
  have hlen : (Threadpool.msgs jobs k).length = jobs.length + k := by
    simp [Threadpool.msgs]
  rw [Threadpool.executed, List.take_of_length_le (le_of_eq hlen)]
  simp [Threadpool.msgs]

/-- C6: shutdown of the worker pool loses no task and leaks no worker.
On the FIFO queue of all submitted jobs followed by one kill message
per worker, in any interleaving of the workers: once all `k` workers
have stopped (i.e. `.drop` has joined them all and returns), every
submitted job has been consumed and executed, in order; and as long as
any message remains, some worker is still alive to take it (no kill
message starves the queue).  The hypothesis `0 < k ∨ jobs = []` records
that jobs can only be submitted while the receiver is alive, i.e. while
there is at least one worker. -/
theorem c6_shutdown_drains (jobs : List Nat) (k m s : Nat)
    (hk : 0 < k ∨ jobs = []) (h : Threadpool.Reach jobs k m s) :
    (s = k → m = jobs.length + k ∧ Threadpool.executed jobs k m = jobs) ∧
    (m < jobs.length + k → s < k) := by
  obtain ⟨hm, hs⟩ := Threadpool.reach_inv jobs k m s h
  constructor
  · intro hsk
    have hmeq : m = jobs.length + k := by
      rcases hk with h1 | h1
      · omega
      · subst h1
        simp only [List.length_nil] at hm hs ⊢
        omega
    exact ⟨hmeq, hmeq ▸ Threadpool.executed_full jobs k⟩
  · intro hlt
    rcases hk with h1 | h1
    · omega
    · subst h1
      simp only [List.length_nil] at hm hs hlt ⊢
      omega

/-- Witness for C6: two jobs, one worker, run to completion (three
messages consumed, the worker stopped by the kill message). -/
theorem c6_shutdown_drains_witness :
    (0 < 1 ∨ ([1, 2] : List Nat) = []) ∧
    (1 = 1 → 3 = [1, 2].length + 1 ∧ Threadpool.executed [1, 2] 1 3 = [1, 2]) ∧
    (3 < [1, 2].length + 1 → 1 < 1) := by
  have hr1 : Threadpool.Reach [1, 2] 1 1 0 := by
    have h0 := Threadpool.Reach.step 0 0 (some 1)
      (Threadpool.Reach.init : Threadpool.Reach [1, 2] 1 0 0) (by decide) (by decide)
    simpa using h0
  have hr2 : Threadpool.Reach [1, 2] 1 2 0 := by
    have h0 := Threadpool.Reach.step 1 0 (some 2) hr1 (by decide) (by decide)
    simpa using h0
  have hr3 : Threadpool.Reach [1, 2] 1 3 1 := by
    have h0 := Threadpool.Reach.step 2 0 none hr2 (by decide) (by decide)
    simpa using h0
  have hmain := c6_shutdown_drains [1, 2] 1 3 1 (Or.inl (by decide)) hr3
  exact ⟨Or.inl (by decide), hmain.1, hmain.2⟩

/-- C10 counterexample: for a pool with zero workers, `execute` does
not accept the job — the receiver was dropped when `new` returned (no
worker thread holds the `Arc`), so `sender.send(..).unwrap()` panics. -/
theorem c10_counterexample :
    Threadpool.execute (Threadpool.new 0) = .panicked ∧
    Threadpool.execute (Threadpool.new 0) ≠ .ok () := by
  exact ⟨by decide, by decide⟩

/-- C10 amended: with zero workers the receiver is dropped at
construction, so the first `execute` call panics on the send
(rather than accepting and enqueueing); no submitted job is ever
executed (with zero workers no message is ever consumed), and `Drop`
returns without executing any queued job (it sends zero kill messages
and joins zero workers). -/
theorem c10_zero_workers :
    Threadpool.execute (Threadpool.new 0) = .panicked ∧
    (Threadpool.new 0).receiverAlive = false ∧
    (Threadpool.new 0).workers = 0 ∧
    (∀ (jobs : List Nat) (m s : Nat), Threadpool.Reach jobs 0 m s →
      m = 0 ∧ Threadpool.executed jobs 0 m = []) := by
  refine ⟨by decide, by decide, by decide, ?_⟩
  intro jobs m s h
  have hm0 : m = 0 := by
    cases h with
    | init => rfl
    | step m s msg h hw hm => exact absurd hw (by omega)
  subst hm0
  exact ⟨rfl, by simp [Threadpool.executed]⟩

/-- Witness for C10's amended theorem. -/
theorem c10_zero_workers_witness :
    Threadpool.execute (Threadpool.new 0) = .panicked ∧
    (0 = 0 ∧ Threadpool.executed [5] 0 0 = []) :=
  ⟨c10_zero_workers.1, c10_zero_workers.2.2.2 [5] 0 0 Threadpool.Reach.init⟩
